import Mathlib

/-
Verification development for the toppra qpOASES solver wrapper
(toppra/solverwrapper/hot_qpoases_solverwrapper.py together with the base
class in toppra/solverwrapper/solverwrapper.py).

The embedding models the per-stage solve of hotqpOASESSolverWrapper:

* Machine floats are modelled as rationals.  The buffers _A, _lA, _hA are
  modelled as total functions from row index to value together with the
  wrapper's fixed row count nC; the two-entry buffers _l, _h are pairs.
  Only the first two columns of _A are ever read by the Python code (the
  fallback, the column sums, and the scaled products all touch columns 0
  and 1 only, and every successful path requires nV = 2), so a row is
  modelled as the pair of its first two entries, with the column count
  kept separately to reproduce numpy shape errors.
* The qpOASES backend (an external package, out of scope per the spec) is
  an opaque parameter: a function from (session, cold-start flag, problem
  data) to an optional primal solution.  The session flag distinguishes
  solver_minimizing (true) from solver_maximizing (false); the second flag
  is true for init (cold start) and false for hotstart.
* Python exceptions are modelled as error values: evaluating
  abs(x_min - x_max) with a None operand is a TypeError, referencing the
  unassigned local delta is an unbound-local error, and numpy shape
  mismatches are ValueErrors.
* Values that can be NaN in the returned vector are a dedicated type.
-/

set_option linter.unusedVariables false
set_option maxRecDepth 8000

abbrev Vec := List ℚ
abbrev Mat := List Vec

/-- Dot product of two rational vectors (numpy F.dot(a) for one row). -/
def dotQ (x y : Vec) : ℚ := (List.zipWith (fun p q => p * q) x y).sum

/-- Matrix-vector product (numpy F.dot(a)). -/
def matVec (M : Mat) (x : Vec) : Vec := M.map (fun row => dotQ row x)

/-- Python abs on a rational. -/
def pabs (q : ℚ) : ℚ := if q < 0 then -q else q

/-- Modelled from the spec: QPOASES_INFTY is imported from toppra/constants.py,
which is not part of the two source files.  The spec describes it as the
(large, finite in floating point) stand-in for plus infinity used to
initialize all bounds; it is modelled as a fixed large positive rational. -/
def QPOASES_INFTY : ℚ := 100000000000000000000

/-- Tolerance eps = 1e-8 from line 16 of hot_qpoases_solverwrapper.py. -/
def eps : ℚ := 1 / 100000000

/-- Additive regularizer 1e-5 in the column scale denominators (lines 180-181). -/
def smallReg : ℚ := 1 / 100000

/-- Constraint parameter tuple (a, b, c, F, v, ubound, xbound) for one
constraint, as produced by compute_constraint_params and stored in
self.params.  Stage-indexed arrays are functions of the stage index; for an
"identical" constraint F and v are constant functions (the code indexes F
and v directly in that case, F[i] and v[i] otherwise, which this model
merges into application at the stage).  hasA is the "a is not None" test;
extraVars is get_no_extra_vars(). -/
structure CParams where
  hasA : Bool
  F : ℕ → Mat
  a : ℕ → Vec
  b : ℕ → Vec
  c : ℕ → Vec
  v : ℕ → Vec
  ubound : Option (ℕ → ℚ × ℚ)
  xbound : Option (ℕ → ℚ × ℚ)
  extraVars : ℕ

/-- Number of rows this constraint contributes to nC at construction
(F.shape[0] for identical constraints, F.shape[1] for stage-indexed ones;
both are the per-stage row count). -/
def CParams.rowCount (cp : CParams) : ℕ := if cp.hasA then (cp.F 0).length else 0

/-- Block of upper bounds v - F.dot(c[i]) contributed by one constraint. -/
def hABlock (cp : CParams) (i : ℕ) : Vec :=
  List.zipWith (fun x y => x - y) (cp.v i) (matVec (cp.F i) (cp.c i))

/-- The wrapper configuration fixed at construction: number of stages N,
the grid spacings delta, the constraint parameter list, and disable_check. -/
structure Wrapper where
  Nstages : ℕ
  deltas : ℕ → ℚ
  params : List CParams
  disableCheck : Bool

/-- Total number of variables nV = 2 + sum of extra variables (solverwrapper.py line 55). -/
def Wrapper.nV (w : Wrapper) : ℕ := 2 + (w.params.map (fun cp => cp.extraVars)).sum

/-- Total number of constraint rows nC = 2 + per-constraint row counts (lines 55-64). -/
def Wrapper.nC (w : Wrapper) : ℕ := 2 + (w.params.map CParams.rowCount).sum

/-- Total number of rows written by the constraint loop at stage i. -/
def blockTotal (w : Wrapper) (i : ℕ) : ℕ :=
  (w.params.map (fun cp => if cp.hasA then (cp.F i).length else 0)).sum

/-- Mutable state of the wrapper: the buffers _A (first two columns of each
row, plus the column count of the allocated array), _lA, _hA, _l, _h, and
the two most-recently-solved stage indexes set up by setup_solver. -/
structure SolverState where
  A : ℕ → ℚ × ℚ
  Acols : ℕ
  lA : ℕ → ℚ
  hA : ℕ → ℚ
  l : ℚ × ℚ
  h : ℚ × ℚ
  minRecent : ℤ
  maxRecent : ℤ

/-- State after __init__ (lines 69-73) and setup_solver (lines 87-88):
zero matrix with nV columns, infinite bounds, recent indexes -2. -/
def initState (w : Wrapper) : SolverState where
  A := fun _ => (0, 0)
  Acols := w.nV
  lA := fun _ => -QPOASES_INFTY
  hA := fun _ => QPOASES_INFTY
  l := (-QPOASES_INFTY, -QPOASES_INFTY)
  h := (QPOASES_INFTY, QPOASES_INFTY)
  minRecent := -2
  maxRecent := -2

/-- Pointwise update of a row-indexed buffer. -/
def updF {α : Type} (f : ℕ → α) (n : ℕ) (v : α) : ℕ → α :=
  fun r => if r = n then v else f r

/-- Python exceptions that solve_stagewise_optim can raise. -/
inductive PyError where
  | typeError
  | unboundLocal
  | valueError
  | assertionError
deriving DecidableEq, Repr

/-- A float entry of the returned vector: a number or NaN. -/
inductive PyFloat where
  | num (q : ℚ)
  | nan
deriving DecidableEq, Repr

/-- The all-NaN failure vector of length n (lines 261-263). -/
def nanVec (n : ℕ) : List PyFloat := List.replicate n PyFloat.nan

/-- Tightening of _l[0]/_h[0] by ubound and _l[1]/_h[1] by xbound inside the
constraint loop (lines 144-150). -/
def tightenBounds (s : SolverState) (cp : CParams) (i : ℕ) : SolverState :=
  let s1 := match cp.ubound with
    | some ub => { s with l := (max s.l.1 (ub i).1, s.l.2), h := (min s.h.1 (ub i).2, s.h.2) }
    | none => s
  match cp.xbound with
  | some xb => { s1 with l := (s1.l.1, max s1.l.2 (xb i).1), h := (s1.h.1, min s1.h.2 (xb i).2) }
  | none => s1

/-- One iteration of the constraint loop (lines 127-150): if a is present,
write the block of rows F.dot(a[i]), F.dot(b[i]) into columns 0 and 1 of
_A starting at cur_index, the bounds v - F.dot(c[i]) into _hA, -INFTY into
_lA, and advance cur_index by the block size; then apply ubound/xbound. -/
def applyC (i : ℕ) (sc : SolverState × ℕ) (cp : CParams) : SolverState × ℕ :=
  let s := sc.1
  let cur := sc.2
  if cp.hasA then
    let F := cp.F i
    let k := F.length
    let c0 := matVec F (cp.a i)
    let c1 := matVec F (cp.b i)
    let bh := hABlock cp i
    let s2 := { s with
      A := fun r => if cur ≤ r ∧ r < cur + k then (c0.getD (r - cur) 0, c1.getD (r - cur) 0) else s.A r
      hA := fun r => if cur ≤ r ∧ r < cur + k then bh.getD (r - cur) 0 else s.hA r
      lA := fun r => if cur ≤ r ∧ r < cur + k then -QPOASES_INFTY else s.lA r }
    (tightenBounds s2 cp i, cur + k)
  else
    (tightenBounds s cp i, cur)

/-- Lines 102-108: reset _l and _h to the infinite box and tighten entry 1
by x_min and x_max. -/
def lhReset (s0 : SolverState) (xMin xMax : Option ℚ) : SolverState :=
  let s : SolverState :=
    { s0 with l := (-QPOASES_INFTY, -QPOASES_INFTY), h := (QPOASES_INFTY, QPOASES_INFTY) }
  let s : SolverState := match xMin with
    | some v => { s with l := (s.l.1, max s.l.2 v) }
    | none => s
  match xMax with
  | some v => { s with h := (s.h.1, min s.h.2 v) }
  | none => s

/-- Lines 110-125: the two next-state rows, written with delta[i].  Row 0
encodes x_next_min <= x + 2 delta u with negated coefficients and bound
-x_next_min; row 1 encodes x + 2 delta u <= x_next_max directly; an absent
bound zeroes the coefficients and sets the bound to +INFTY. -/
def rows01Write (s0 : SolverState) (d : ℚ) (xNextMin xNextMax : Option ℚ) : SolverState :=
  let s : SolverState := match xNextMin with
    | some v => { s0 with A := updF s0.A 0 (-(2 * d), -1), hA := updF s0.hA 0 (-v) }
    | none => { s0 with A := updF s0.A 0 (0, 0), hA := updF s0.hA 0 QPOASES_INFTY }
  let s : SolverState := { s with lA := updF s.lA 0 (-QPOASES_INFTY) }
  let s : SolverState := match xNextMax with
    | some v => { s with A := updF s.A 1 (2 * d, 1), hA := updF s.hA 1 v }
    | none => { s with A := updF s.A 1 (0, 0), hA := updF s.hA 1 QPOASES_INFTY }
  { s with lA := updF s.lA 1 (-QPOASES_INFTY) }

/-- Assembly of the stage problem (lines 102-150): reset and tighten _l/_h,
write the two next-state rows when i < N (a ValueError is raised by numpy
when a two-element row is assigned into a row of a buffer whose column
count is not 2), then run the constraint loop from index 2.  Returns the
updated state and the exception, if one was raised. -/
def assemble (w : Wrapper) (s0 : SolverState) (i : ℕ)
    (xMin xMax xNextMin xNextMax : Option ℚ) : SolverState × Option PyError :=
  let s := lhReset s0 xMin xMax
  if i < w.Nstages then
    if s.Acols = 2 then
      ((w.params.foldl (applyC i) (rows01Write s (w.deltas i) xNextMin xNextMax, 2)).1, none)
    else (s, some PyError.valueError)
  else
    ((w.params.foldl (applyC i) (s, 2)).1, none)

/-- The u-interval computed by the degenerate line-search fallback
(lines 155-161): fold over all rows, tightening u_max on rows with positive
first coefficient and u_min on rows with negative first coefficient. -/
def fallback_u (w : Wrapper) (s : SolverState) (xm : ℚ) : ℚ × ℚ :=
  (List.range w.nC).foldl
    (fun ub r =>
      if (s.A r).1 > 0 then (ub.1, min ub.2 ((s.hA r - (s.A r).2 * xm) / (s.A r).1))
      else if (s.A r).1 < 0 then (max ub.1 ((s.hA r - (s.A r).2 * xm) / (s.A r).1), ub.2)
      else ub)
    (-QPOASES_INFTY, QPOASES_INFTY)

/-- Problem data handed to the qpOASES backend: the scaled H, g, A, l, h,
lA, hA, with the row-indexed buffers materialized at their true length nC. -/
structure QProblem where
  H : (ℚ × ℚ) × (ℚ × ℚ)
  g : ℚ × ℚ
  A : List (ℚ × ℚ)
  l : ℚ × ℚ
  h : ℚ × ℚ
  lA : List ℚ
  hA : List ℚ
deriving DecidableEq

/-- Sum of absolute values of one column of _A over the constraint rows
(rows 2 and beyond), as in np.sum(np.abs(self._A[2:, col])). -/
def colAbsSum (w : Wrapper) (A : ℕ → ℚ × ℚ) (fst : Bool) : ℚ :=
  ((List.range w.nC).drop 2).foldl
    (fun acc r => acc + pabs (if fst then (A r).1 else (A r).2)) 0

/-- The scaling step (lines 180-199): column (variable) scaling by the
reciprocal regularized column sums, then row scaling by the reciprocal of
one plus the row magnitude.  Returns the scaled problem data, the variable
scales, and the state with the rebound scaled buffers. -/
def scaledPass (w : Wrapper) (s : SolverState) (H : (ℚ × ℚ) × (ℚ × ℚ)) (g : ℚ × ℚ) :
    QProblem × (ℚ × ℚ) × SolverState :=
  let c1 := 1 / (colAbsSum w s.A true + smallReg)
  let c2 := 1 / (colAbsSum w s.A false + smallReg)
  let A1 := fun r => ((s.A r).1 * c1, (s.A r).2 * c2)
  let l1 := (s.l.1 / c1, s.l.2 / c2)
  let h1 := (s.h.1 / c1, s.h.2 / c2)
  let gs := (g.1 * c1, g.2 * c2)
  let Hs := ((H.1.1 * c1 * c1, H.1.2 * c1 * c2), (H.2.1 * c2 * c1, H.2.2 * c2 * c2))
  let rf := fun r => 1 / (pabs (A1 r).1 + pabs (A1 r).2 + 1)
  let A2 := fun r => ((A1 r).1 * rf r, (A1 r).2 * rf r)
  let lA2 := fun r => s.lA r * rf r
  let hA2 := fun r => s.hA r * rf r
  let s2 := { s with A := A2, lA := lA2, hA := hA2, l := l1, h := h1 }
  let p : QProblem :=
    { H := Hs, g := gs, A := (List.range w.nC).map A2, l := l1, h := h1,
      lA := (List.range w.nC).map lA2, hA := (List.range w.nC).map hA2 }
  (p, (c1, c2), s2)

/-- The opaque qpOASES backend: first flag selects the session (true for
solver_minimizing, false for solver_maximizing), second flag is true for a
cold init and false for a hotstart; the result is the primal solution on a
SUCCESSFUL_RETURN and none on any other return code. -/
abbrev Backend := Bool → Bool → QProblem → Option (ℚ × ℚ)

/-- Feasibility re-check after a reported success (lines 237-239), applied
to the scaled buffers and the scaled primal solution var:
all(l <= var + eps), all(var <= h + eps), all(A var <= hA + eps),
all(A var >= lA - eps). -/
def feasCheck (p : QProblem) (var : ℚ × ℚ) : Bool :=
  decide (p.l.1 ≤ var.1 + eps) && decide (p.l.2 ≤ var.2 + eps) &&
  decide (var.1 ≤ p.h.1 + eps) && decide (var.2 ≤ p.h.2 + eps) &&
  (List.zipWith (fun (row : ℚ × ℚ) bnd => decide (row.1 * var.1 + row.2 * var.2 ≤ bnd + eps))
    p.A p.hA).all id &&
  (List.zipWith (fun (row : ℚ × ℚ) bnd => decide (row.1 * var.1 + row.2 * var.2 ≥ bnd - eps))
    p.A p.lA).all id

/-- Post-processing of the backend result (lines 223-263): on success return
var * variable_scales, unless checking is enabled and the re-check fails, in
which case fall through to the all-NaN vector; on backend failure return the
all-NaN vector. -/
def finalize (w : Wrapper) (scales : ℚ × ℚ) (p : QProblem) (res : Option (ℚ × ℚ)) :
    List PyFloat :=
  match res with
  | some var =>
    if w.disableCheck then [PyFloat.num (var.1 * scales.1), PyFloat.num (var.2 * scales.2)]
    else if feasCheck p var then [PyFloat.num (var.1 * scales.1), PyFloat.num (var.2 * scales.2)]
    else nanVec w.nV
  | none => nanVec w.nV

/-- Lines 201-263: select the session by the sign of the scaled g[1]
(minimizing when positive, else maximizing), cold-start (init) exactly when
the new stage index differs from that session recent index by more than 1
and hotstart otherwise, record i as the session recent index, and
post-process the backend result. -/
def dispatchSolve (w : Wrapper) (be : Backend) (s2 : SolverState) (i : ℕ)
    (p : QProblem) (scales : ℚ × ℚ) : Except PyError (List PyFloat) × SolverState :=
  if p.g.2 > 0 then
    (Except.ok (finalize w scales p
        (be true (decide ((s2.minRecent - (i : ℤ)).natAbs > 1)) p)),
      { s2 with minRecent := (i : ℤ) })
  else
    (Except.ok (finalize w scales p
        (be false (decide ((s2.maxRecent - (i : ℤ)).natAbs > 1)) p)),
      { s2 with maxRecent := (i : ℤ) })

/-- The per-stage solve (lines 94-263): assert the stage index, assemble the
problem, evaluate the degenerate-fallback test (a TypeError when a state
bound is absent), take the closed-form fallback when it triggers (an
unbound-local error at the final stage, where delta was never assigned),
otherwise scale the problem (a ValueError unless the buffer has exactly two
columns), dispatch to the session selected by the sign of the scaled g[1]
with a cold init exactly when the session's recent stage index is further
than 1 from i, record i as that session's recent index, and post-process. -/
def solve_stagewise_optim (w : Wrapper) (be : Backend) (s0 : SolverState) (i : ℕ)
    (Hq : Option ((ℚ × ℚ) × (ℚ × ℚ))) (g : ℚ × ℚ)
    (xMin xMax xNextMin xNextMax : Option ℚ) :
    Except PyError (List PyFloat) × SolverState :=
  if i ≤ w.Nstages then
    let asm := assemble w s0 i xMin xMax xNextMin xNextMax
    match asm.2 with
    | some e => (Except.error e, asm.1)
    | none =>
      let s1 := asm.1
      match xMin, xMax with
      | some xm, some xM =>
        if pabs (xm - xM) < eps ∧ Hq = none ∧ w.nV = 2 then
          let ub := fallback_u w s1 xm
          if i < w.Nstages then
            let d := w.deltas i
            let u := if g.1 < 0 then ub.2 else ub.1
            (Except.ok [PyFloat.num u, PyFloat.num (xm + 2 * u * d)], s1)
          else (Except.error PyError.unboundLocal, s1)
        else
          let H := Hq.getD ((0, 0), (0, 0))
          if s1.Acols = 2 then
            let psc := scaledPass w s1 H g
            dispatchSolve w be psc.2.2 i psc.1 psc.2.1
          else (Except.error PyError.valueError, s1)
      | _, _ => (Except.error PyError.typeError, s1)
  else (Except.error PyError.assertionError, s0)

/-- Modelled from the spec: the feasibility verification as the spec
describes it, in unscaled original units, applied to a solution var in
original units against the unscaled assembled state:
l - eps <= var <= h + eps and lA - eps <= A var <= hA + eps. -/
def specCheckUnscaled (w : Wrapper) (s : SolverState) (var : ℚ × ℚ) : Bool :=
  decide (s.l.1 - eps ≤ var.1) && decide (var.1 ≤ s.h.1 + eps) &&
  decide (s.l.2 - eps ≤ var.2) && decide (var.2 ≤ s.h.2 + eps) &&
  (List.range w.nC).all (fun r =>
    decide (s.lA r - eps ≤ (s.A r).1 * var.1 + (s.A r).2 * var.2) &&
    decide ((s.A r).1 * var.1 + (s.A r).2 * var.2 ≤ s.hA r + eps))

/- Basic helper lemmas. -/

theorem pabs_nonneg (q : ℚ) : 0 ≤ pabs q := by
  unfold pabs; split <;> linarith

theorem QPOASES_INFTY_pos : 0 < QPOASES_INFTY := by norm_num [QPOASES_INFTY]

@[simp] theorem tightenBounds_A (s : SolverState) (cp : CParams) (i : ℕ) :
    (tightenBounds s cp i).A = s.A := by
  unfold tightenBounds; cases cp.ubound <;> cases cp.xbound <;> simp

@[simp] theorem tightenBounds_lA (s : SolverState) (cp : CParams) (i : ℕ) :
    (tightenBounds s cp i).lA = s.lA := by
  unfold tightenBounds; cases cp.ubound <;> cases cp.xbound <;> simp

@[simp] theorem tightenBounds_hA (s : SolverState) (cp : CParams) (i : ℕ) :
    (tightenBounds s cp i).hA = s.hA := by
  unfold tightenBounds; cases cp.ubound <;> cases cp.xbound <;> simp

@[simp] theorem tightenBounds_Acols (s : SolverState) (cp : CParams) (i : ℕ) :
    (tightenBounds s cp i).Acols = s.Acols := by
  unfold tightenBounds; cases cp.ubound <;> cases cp.xbound <;> simp

@[simp] theorem tightenBounds_minRecent (s : SolverState) (cp : CParams) (i : ℕ) :
    (tightenBounds s cp i).minRecent = s.minRecent := by
  unfold tightenBounds; cases cp.ubound <;> cases cp.xbound <;> simp

@[simp] theorem tightenBounds_maxRecent (s : SolverState) (cp : CParams) (i : ℕ) :
    (tightenBounds s cp i).maxRecent = s.maxRecent := by
  unfold tightenBounds; cases cp.ubound <;> cases cp.xbound <;> simp

theorem tightenBounds_l (s : SolverState) (cp : CParams) (i : ℕ) :
    (tightenBounds s cp i).l =
      ((match cp.ubound with | some ub => max s.l.1 (ub i).1 | none => s.l.1),
       (match cp.xbound with | some xb => max s.l.2 (xb i).1 | none => s.l.2)) := by
  unfold tightenBounds; cases cp.ubound <;> cases cp.xbound <;> simp

theorem tightenBounds_h (s : SolverState) (cp : CParams) (i : ℕ) :
    (tightenBounds s cp i).h =
      ((match cp.ubound with | some ub => min s.h.1 (ub i).2 | none => s.h.1),
       (match cp.xbound with | some xb => min s.h.2 (xb i).2 | none => s.h.2)) := by
  unfold tightenBounds; cases cp.ubound <;> cases cp.xbound <;> simp

theorem applyC_Acols (i : ℕ) (sc : SolverState × ℕ) (cp : CParams) :
    (applyC i sc cp).1.Acols = sc.1.Acols := by
  unfold applyC; split <;> simp

theorem applyC_minRecent (i : ℕ) (sc : SolverState × ℕ) (cp : CParams) :
    (applyC i sc cp).1.minRecent = sc.1.minRecent := by
  unfold applyC; split <;> simp

theorem applyC_maxRecent (i : ℕ) (sc : SolverState × ℕ) (cp : CParams) :
    (applyC i sc cp).1.maxRecent = sc.1.maxRecent := by
  unfold applyC; split <;> simp

theorem applyC_cur (i : ℕ) (sc : SolverState × ℕ) (cp : CParams) :
    (applyC i sc cp).2 = sc.2 + (if cp.hasA then (cp.F i).length else 0) := by
  unfold applyC; split <;> simp_all

theorem applyC_l (i : ℕ) (sc : SolverState × ℕ) (cp : CParams) :
    (applyC i sc cp).1.l = (tightenBounds sc.1 cp i).l := by
  unfold applyC; split
  · rw [tightenBounds_l, tightenBounds_l]
  · rfl

theorem applyC_h (i : ℕ) (sc : SolverState × ℕ) (cp : CParams) :
    (applyC i sc cp).1.h = (tightenBounds sc.1 cp i).h := by
  unfold applyC; split
  · rw [tightenBounds_h, tightenBounds_h]
  · rfl

theorem applyC_below (i : ℕ) (sc : SolverState × ℕ) (cp : CParams) (r : ℕ) (hr : r < sc.2) :
    (applyC i sc cp).1.A r = sc.1.A r ∧ (applyC i sc cp).1.lA r = sc.1.lA r ∧
    (applyC i sc cp).1.hA r = sc.1.hA r := by
  unfold applyC; split
  · simp only [tightenBounds_A, tightenBounds_lA, tightenBounds_hA]
    have hnot : ¬ (sc.2 ≤ r ∧ r < sc.2 + (cp.F i).length) := by omega
    simp [hnot]
  · simp

theorem foldl_applyC_misc (i : ℕ) (ps : List CParams) :
    ∀ sc : SolverState × ℕ,
      (ps.foldl (applyC i) sc).1.Acols = sc.1.Acols ∧
      (ps.foldl (applyC i) sc).1.minRecent = sc.1.minRecent ∧
      (ps.foldl (applyC i) sc).1.maxRecent = sc.1.maxRecent := by
  induction ps with
  | nil => intro sc; simp
  | cons cp ps ih =>
    intro sc
    simp only [List.foldl_cons]
    obtain ⟨h1, h2, h3⟩ := ih (applyC i sc cp)
    exact ⟨h1.trans (applyC_Acols i sc cp), h2.trans (applyC_minRecent i sc cp),
      h3.trans (applyC_maxRecent i sc cp)⟩

theorem foldl_applyC_cur (i : ℕ) (ps : List CParams) :
    ∀ sc : SolverState × ℕ,
      (ps.foldl (applyC i) sc).2 =
        sc.2 + (ps.map (fun cp => if cp.hasA then (cp.F i).length else 0)).sum := by
  induction ps with
  | nil => intro sc; simp
  | cons cp ps ih =>
    intro sc
    simp only [List.foldl_cons, List.map_cons, List.sum_cons]
    rw [ih (applyC i sc cp), applyC_cur]
    omega

theorem foldl_applyC_below (i : ℕ) (ps : List CParams) :
    ∀ sc : SolverState × ℕ, ∀ r : ℕ, r < sc.2 →
      (ps.foldl (applyC i) sc).1.A r = sc.1.A r ∧
      (ps.foldl (applyC i) sc).1.lA r = sc.1.lA r ∧
      (ps.foldl (applyC i) sc).1.hA r = sc.1.hA r := by
  induction ps with
  | nil => intro sc r hr; simp
  | cons cp ps ih =>
    intro sc r hr
    simp only [List.foldl_cons]
    have hcur : sc.2 ≤ (applyC i sc cp).2 := by rw [applyC_cur]; omega
    obtain ⟨h1, h2, h3⟩ := ih (applyC i sc cp) r (by omega)
    obtain ⟨g1, g2, g3⟩ := applyC_below i sc cp r hr
    exact ⟨h1.trans g1, h2.trans g2, h3.trans g3⟩

/- Assembly-level lemmas. -/

@[simp] theorem lhReset_A (s0 : SolverState) (xm xM : Option ℚ) :
    (lhReset s0 xm xM).A = s0.A := by
  unfold lhReset; cases xm <;> cases xM <;> simp

@[simp] theorem lhReset_lA (s0 : SolverState) (xm xM : Option ℚ) :
    (lhReset s0 xm xM).lA = s0.lA := by
  unfold lhReset; cases xm <;> cases xM <;> simp

@[simp] theorem lhReset_hA (s0 : SolverState) (xm xM : Option ℚ) :
    (lhReset s0 xm xM).hA = s0.hA := by
  unfold lhReset; cases xm <;> cases xM <;> simp

@[simp] theorem lhReset_Acols (s0 : SolverState) (xm xM : Option ℚ) :
    (lhReset s0 xm xM).Acols = s0.Acols := by
  unfold lhReset; cases xm <;> cases xM <;> simp

@[simp] theorem lhReset_minRecent (s0 : SolverState) (xm xM : Option ℚ) :
    (lhReset s0 xm xM).minRecent = s0.minRecent := by
  unfold lhReset; cases xm <;> cases xM <;> simp

@[simp] theorem lhReset_maxRecent (s0 : SolverState) (xm xM : Option ℚ) :
    (lhReset s0 xm xM).maxRecent = s0.maxRecent := by
  unfold lhReset; cases xm <;> cases xM <;> simp

theorem lhReset_l (s0 : SolverState) (xm xM : Option ℚ) :
    (lhReset s0 xm xM).l = (-QPOASES_INFTY,
      match xm with | some v => max (-QPOASES_INFTY) v | none => -QPOASES_INFTY) := by
  unfold lhReset; cases xm <;> cases xM <;> simp

theorem lhReset_h (s0 : SolverState) (xm xM : Option ℚ) :
    (lhReset s0 xm xM).h = (QPOASES_INFTY,
      match xM with | some v => min QPOASES_INFTY v | none => QPOASES_INFTY) := by
  unfold lhReset; cases xm <;> cases xM <;> simp

@[simp] theorem rows01Write_Acols (s0 : SolverState) (d : ℚ) (xnm xnM : Option ℚ) :
    (rows01Write s0 d xnm xnM).Acols = s0.Acols := by
  unfold rows01Write; cases xnm <;> cases xnM <;> simp

@[simp] theorem rows01Write_minRecent (s0 : SolverState) (d : ℚ) (xnm xnM : Option ℚ) :
    (rows01Write s0 d xnm xnM).minRecent = s0.minRecent := by
  unfold rows01Write; cases xnm <;> cases xnM <;> simp

@[simp] theorem rows01Write_maxRecent (s0 : SolverState) (d : ℚ) (xnm xnM : Option ℚ) :
    (rows01Write s0 d xnm xnM).maxRecent = s0.maxRecent := by
  unfold rows01Write; cases xnm <;> cases xnM <;> simp

@[simp] theorem rows01Write_l (s0 : SolverState) (d : ℚ) (xnm xnM : Option ℚ) :
    (rows01Write s0 d xnm xnM).l = s0.l := by
  unfold rows01Write; cases xnm <;> cases xnM <;> simp

@[simp] theorem rows01Write_h (s0 : SolverState) (d : ℚ) (xnm xnM : Option ℚ) :
    (rows01Write s0 d xnm xnM).h = s0.h := by
  unfold rows01Write; cases xnm <;> cases xnM <;> simp

theorem rows01Write_A0 (s0 : SolverState) (d : ℚ) (xnm xnM : Option ℚ) :
    (rows01Write s0 d xnm xnM).A 0 =
      (match xnm with | some _ => (-(2 * d), -1) | none => ((0 : ℚ), (0 : ℚ))) := by
  unfold rows01Write; cases xnm <;> cases xnM <;> simp [updF]

theorem rows01Write_A1 (s0 : SolverState) (d : ℚ) (xnm xnM : Option ℚ) :
    (rows01Write s0 d xnm xnM).A 1 =
      (match xnM with | some _ => (2 * d, 1) | none => ((0 : ℚ), (0 : ℚ))) := by
  unfold rows01Write; cases xnm <;> cases xnM <;> simp [updF]

theorem rows01Write_hA0 (s0 : SolverState) (d : ℚ) (xnm xnM : Option ℚ) :
    (rows01Write s0 d xnm xnM).hA 0 =
      (match xnm with | some v => -v | none => QPOASES_INFTY) := by
  unfold rows01Write; cases xnm <;> cases xnM <;> simp [updF]

theorem rows01Write_hA1 (s0 : SolverState) (d : ℚ) (xnm xnM : Option ℚ) :
    (rows01Write s0 d xnm xnM).hA 1 =
      (match xnM with | some v => v | none => QPOASES_INFTY) := by
  unfold rows01Write; cases xnm <;> cases xnM <;> simp [updF]

theorem rows01Write_lA0 (s0 : SolverState) (d : ℚ) (xnm xnM : Option ℚ) :
    (rows01Write s0 d xnm xnM).lA 0 = -QPOASES_INFTY := by
  unfold rows01Write; cases xnm <;> cases xnM <;> simp [updF]

theorem rows01Write_lA1 (s0 : SolverState) (d : ℚ) (xnm xnM : Option ℚ) :
    (rows01Write s0 d xnm xnM).lA 1 = -QPOASES_INFTY := by
  unfold rows01Write; cases xnm <;> cases xnM <;> simp [updF]

theorem rows01Write_A_ge2 (s0 : SolverState) (d : ℚ) (xnm xnM : Option ℚ) (r : ℕ)
    (hr : 2 ≤ r) :
    (rows01Write s0 d xnm xnM).A r = s0.A r := by
  unfold rows01Write
  have h0 : r ≠ 0 := by omega
  have h1 : r ≠ 1 := by omega
  cases xnm <;> cases xnM <;> simp [updF, h0, h1]

theorem rows01Write_lA_ge2 (s0 : SolverState) (d : ℚ) (xnm xnM : Option ℚ) (r : ℕ)
    (hr : 2 ≤ r) :
    (rows01Write s0 d xnm xnM).lA r = s0.lA r := by
  unfold rows01Write
  have h0 : r ≠ 0 := by omega
  have h1 : r ≠ 1 := by omega
  cases xnm <;> cases xnM <;> simp [updF, h0, h1]

theorem rows01Write_hA_ge2 (s0 : SolverState) (d : ℚ) (xnm xnM : Option ℚ) (r : ℕ)
    (hr : 2 ≤ r) :
    (rows01Write s0 d xnm xnM).hA r = s0.hA r := by
  unfold rows01Write
  have h0 : r ≠ 0 := by omega
  have h1 : r ≠ 1 := by omega
  cases xnm <;> cases xnM <;> simp [updF, h0, h1]

theorem assemble_misc (w : Wrapper) (s0 : SolverState) (i : ℕ)
    (xm xM xnm xnM : Option ℚ) :
    (assemble w s0 i xm xM xnm xnM).1.Acols = s0.Acols ∧
    (assemble w s0 i xm xM xnm xnM).1.minRecent = s0.minRecent ∧
    (assemble w s0 i xm xM xnm xnM).1.maxRecent = s0.maxRecent := by
  unfold assemble
  split
  · dsimp only
    split
    · refine ⟨?_, ?_, ?_⟩ <;>
        simp [foldl_applyC_misc]
    · simp
  · refine ⟨?_, ?_, ?_⟩ <;>
      simp [foldl_applyC_misc]

theorem assemble_err (w : Wrapper) (s0 : SolverState) (i : ℕ)
    (xm xM xnm xnM : Option ℚ) :
    (assemble w s0 i xm xM xnm xnM).2 =
      (if i < w.Nstages ∧ s0.Acols ≠ 2 then some PyError.valueError else none) := by
  unfold assemble
  split
  · dsimp only
    split
    · simp_all
    · simp_all
  · have hni : ¬ i < w.Nstages := by omega
    simp [hni]

theorem foldl_from2_A0 (i : ℕ) (ps : List CParams) (t : SolverState) :
    (ps.foldl (applyC i) (t, 2)).1.A 0 = t.A 0 :=
  (foldl_applyC_below i ps (t, 2) 0 (by norm_num)).1

theorem foldl_from2_lA0 (i : ℕ) (ps : List CParams) (t : SolverState) :
    (ps.foldl (applyC i) (t, 2)).1.lA 0 = t.lA 0 :=
  (foldl_applyC_below i ps (t, 2) 0 (by norm_num)).2.1

theorem foldl_from2_hA0 (i : ℕ) (ps : List CParams) (t : SolverState) :
    (ps.foldl (applyC i) (t, 2)).1.hA 0 = t.hA 0 :=
  (foldl_applyC_below i ps (t, 2) 0 (by norm_num)).2.2

theorem foldl_from2_A1 (i : ℕ) (ps : List CParams) (t : SolverState) :
    (ps.foldl (applyC i) (t, 2)).1.A 1 = t.A 1 :=
  (foldl_applyC_below i ps (t, 2) 1 (by norm_num)).1

theorem foldl_from2_lA1 (i : ℕ) (ps : List CParams) (t : SolverState) :
    (ps.foldl (applyC i) (t, 2)).1.lA 1 = t.lA 1 :=
  (foldl_applyC_below i ps (t, 2) 1 (by norm_num)).2.1

theorem foldl_from2_hA1 (i : ℕ) (ps : List CParams) (t : SolverState) :
    (ps.foldl (applyC i) (t, 2)).1.hA 1 = t.hA 1 :=
  (foldl_applyC_below i ps (t, 2) 1 (by norm_num)).2.2

theorem assemble_rows01 (w : Wrapper) (s0 : SolverState) (i : ℕ)
    (xm xM xnm xnM : Option ℚ) (hN : i < w.Nstages) (hcols : s0.Acols = 2) :
    (assemble w s0 i xm xM xnm xnM).1.A 0
        = (match xnm with | some _ => (-(2 * w.deltas i), -1) | none => ((0 : ℚ), (0 : ℚ))) ∧
    (assemble w s0 i xm xM xnm xnM).1.hA 0
        = (match xnm with | some v => -v | none => QPOASES_INFTY) ∧
    (assemble w s0 i xm xM xnm xnM).1.lA 0 = -QPOASES_INFTY ∧
    (assemble w s0 i xm xM xnm xnM).1.A 1
        = (match xnM with | some _ => (2 * w.deltas i, 1) | none => ((0 : ℚ), (0 : ℚ))) ∧
    (assemble w s0 i xm xM xnm xnM).1.hA 1
        = (match xnM with | some v => v | none => QPOASES_INFTY) ∧
    (assemble w s0 i xm xM xnm xnM).1.lA 1 = -QPOASES_INFTY := by
  have hcols2 : (lhReset s0 xm xM).Acols = 2 := by simp [hcols]
  unfold assemble
  rw [if_pos hN, if_pos hcols2]
  refine ⟨?_, ?_, ?_, ?_, ?_, ?_⟩
  · rw [foldl_from2_A0, rows01Write_A0]
  · rw [foldl_from2_hA0, rows01Write_hA0]
  · rw [foldl_from2_lA0, rows01Write_lA0]
  · rw [foldl_from2_A1, rows01Write_A1]
  · rw [foldl_from2_hA1, rows01Write_hA1]
  · rw [foldl_from2_lA1, rows01Write_lA1]

/- Invariants of the constraint loop, used for the bound-consistency claim. -/

theorem getD_ge_of_all (l : Vec) (j : ℕ) (b : ℚ) (hb : b ≤ 0)
    (h : ∀ q ∈ l, b ≤ q) : b ≤ l.getD j 0 := by
  by_cases hj : j < l.length
  · rw [List.getD_eq_getElem l 0 hj]
    exact h _ (List.getElem_mem hj)
  · rw [List.getD_eq_default l 0 (le_of_not_lt hj)]
    exact hb

theorem foldl_applyC_lA_all (i : ℕ) (ps : List CParams) :
    ∀ sc : SolverState × ℕ, (∀ r, sc.1.lA r = -QPOASES_INFTY) →
      ∀ r, (ps.foldl (applyC i) sc).1.lA r = -QPOASES_INFTY := by
  induction ps with
  | nil => intro sc h r; exact h r
  | cons cp ps ih =>
    intro sc h r
    simp only [List.foldl_cons]
    refine ih (applyC i sc cp) ?_ r
    intro r2
    unfold applyC
    split
    · simp only [tightenBounds_lA]
      split
      · rfl
      · exact h r2
    · simp only [tightenBounds_lA]
      exact h r2

theorem foldl_applyC_hA_ge (i : ℕ) (ps : List CParams) :
    (∀ cp ∈ ps, ∀ q ∈ hABlock cp i, -QPOASES_INFTY ≤ q) →
    ∀ sc : SolverState × ℕ, (∀ r, -QPOASES_INFTY ≤ sc.1.hA r) →
      ∀ r, -QPOASES_INFTY ≤ (ps.foldl (applyC i) sc).1.hA r := by
  induction ps with
  | nil => intro _ sc h r; exact h r
  | cons cp ps ih =>
    intro hps sc h r
    simp only [List.foldl_cons]
    refine ih (fun c hc => hps c (List.mem_cons_of_mem _ hc)) (applyC i sc cp) ?_ r
    intro r2
    unfold applyC
    split
    · simp only [tightenBounds_hA]
      split
      · exact getD_ge_of_all _ _ _ (by linarith [QPOASES_INFTY_pos])
          (hps cp (List.mem_cons_self _ _))
      · exact h r2
    · simp only [tightenBounds_hA]
      exact h r2

theorem foldl_applyC_lh (i : ℕ) (ps : List CParams) (mu mx : ℚ) :
    (∀ cp ∈ ps, (∀ f, cp.ubound = some f → (f i).1 ≤ mu ∧ mu ≤ (f i).2) ∧
                (∀ f, cp.xbound = some f → (f i).1 ≤ mx ∧ mx ≤ (f i).2)) →
    ∀ sc : SolverState × ℕ,
      sc.1.l.1 ≤ mu → mu ≤ sc.1.h.1 → sc.1.l.2 ≤ mx → mx ≤ sc.1.h.2 →
      (ps.foldl (applyC i) sc).1.l.1 ≤ mu ∧ mu ≤ (ps.foldl (applyC i) sc).1.h.1 ∧
      (ps.foldl (applyC i) sc).1.l.2 ≤ mx ∧ mx ≤ (ps.foldl (applyC i) sc).1.h.2 := by
  induction ps with
  | nil => intro _ sc h1 h2 h3 h4; exact ⟨h1, h2, h3, h4⟩
  | cons cp ps ih =>
    intro hps sc h1 h2 h3 h4
    simp only [List.foldl_cons]
    obtain ⟨hu, hx⟩ := hps cp (List.mem_cons_self _ _)
    refine ih (fun c hc => hps c (List.mem_cons_of_mem _ hc)) (applyC i sc cp) ?_ ?_ ?_ ?_
    · rw [applyC_l, tightenBounds_l]
      cases hub : cp.ubound with
      | none => simpa using h1
      | some f => simp only [hub]; exact max_le h1 (hu f hub).1
    · rw [applyC_h, tightenBounds_h]
      cases hub : cp.ubound with
      | none => simpa using h2
      | some f => simp only [hub]; exact le_min h2 (hu f hub).2
    · rw [applyC_l, tightenBounds_l]
      cases hxb : cp.xbound with
      | none => simpa using h3
      | some f => simp only [hxb]; exact max_le h3 (hx f hxb).1
    · rw [applyC_h, tightenBounds_h]
      cases hxb : cp.xbound with
      | none => simpa using h4
      | some f => simp only [hxb]; exact le_min h4 (hx f hxb).2

/- Concrete wrapper used to refute the bound-consistency claim as stated:
one constraint whose xbound interval [0, 1] is itself consistent, combined
with the also-consistent request x_min = 2, x_max = 3. -/

def cpC7 : CParams where
  hasA := false
  F := fun _ => []
  a := fun _ => []
  b := fun _ => []
  c := fun _ => []
  v := fun _ => []
  ubound := none
  xbound := some (fun _ => (0, 1))
  extraVars := 0

def wC7 : Wrapper where
  Nstages := 0
  deltas := fun _ => 1
  params := [cpC7]
  disableCheck := false

/-- C7 counterexample: with the consistent intervals x_min = 2 <= x_max = 3
and xbound = [0, 1] (each interval satisfies lower <= upper), the assembled
bounds have l[1] = 2 > 1 = h[1], so per-interval consistency does not give
l <= h. -/
theorem C7_counterexample :
    (assemble wC7 (initState wC7) 0 (some 2) (some 3) none none).2 = none ∧
    ¬ ((assemble wC7 (initState wC7) 0 (some 2) (some 3) none none).1.l.2 ≤
       (assemble wC7 (initState wC7) 0 (some 2) (some 3) none none).1.h.2) := by
  constructor
  · decide
  · decide

/-- C7 (amended): for every stage i, the problem assembled from the fresh
buffers satisfies l <= h and lA <= hA componentwise whenever the supplied
bounds are jointly consistent: some value mu lies within QPOASES_INFTY and
inside every supplied u-bound interval, some value mx lies within
QPOASES_INFTY, inside every supplied x-bound interval and between x_min and
x_max; and every constraint row upper bound v - F.dot(c[i]) is at least
-QPOASES_INFTY, x_next_min at most QPOASES_INFTY and x_next_max at least
-QPOASES_INFTY.  Each applied bound only tightens (lower bounds by max,
upper bounds by min).  Per-interval consistency alone is not enough: two
disjoint consistent intervals make l[1] > h[1]. -/
theorem C7_bounds_consistent (w : Wrapper) (i : ℕ) (xm xM xnm xnM : Option ℚ) (mu mx : ℚ)
    (hnV : w.nV = 2)
    (hmu1 : -QPOASES_INFTY ≤ mu) (hmu2 : mu ≤ QPOASES_INFTY)
    (hmx1 : -QPOASES_INFTY ≤ mx) (hmx2 : mx ≤ QPOASES_INFTY)
    (hxm : ∀ v, xm = some v → v ≤ mx) (hxM : ∀ v, xM = some v → mx ≤ v)
    (hxnm : ∀ v, xnm = some v → v ≤ QPOASES_INFTY)
    (hxnM : ∀ v, xnM = some v → -QPOASES_INFTY ≤ v)
    (hub : ∀ cp ∈ w.params, ∀ f, cp.ubound = some f → (f i).1 ≤ mu ∧ mu ≤ (f i).2)
    (hxb : ∀ cp ∈ w.params, ∀ f, cp.xbound = some f → (f i).1 ≤ mx ∧ mx ≤ (f i).2)
    (hblk : ∀ cp ∈ w.params, ∀ q ∈ hABlock cp i, -QPOASES_INFTY ≤ q) :
    (assemble w (initState w) i xm xM xnm xnM).2 = none ∧
    (assemble w (initState w) i xm xM xnm xnM).1.l.1 ≤
      (assemble w (initState w) i xm xM xnm xnM).1.h.1 ∧
    (assemble w (initState w) i xm xM xnm xnM).1.l.2 ≤
      (assemble w (initState w) i xm xM xnm xnM).1.h.2 ∧
    ∀ r, (assemble w (initState w) i xm xM xnm xnM).1.lA r ≤
      (assemble w (initState w) i xm xM xnm xnM).1.hA r := by
  have hcols : (initState w).Acols = 2 := by
    show w.nV = 2
    exact hnV
  have hcols2 : (lhReset (initState w) xm xM).Acols = 2 := by simp [hcols]
  have hl1 : (lhReset (initState w) xm xM).l.1 ≤ mu := by
    rw [lhReset_l]; exact hmu1
  have hh1 : mu ≤ (lhReset (initState w) xm xM).h.1 := by
    rw [lhReset_h]; exact hmu2
  have hl2 : (lhReset (initState w) xm xM).l.2 ≤ mx := by
    rw [lhReset_l]
    cases xm with
    | none => exact hmx1
    | some v => exact max_le hmx1 (hxm v rfl)
  have hh2 : mx ≤ (lhReset (initState w) xm xM).h.2 := by
    rw [lhReset_h]
    cases xM with
    | none => exact hmx2
    | some v => exact le_min hmx2 (hxM v rfl)
  have hcons : ∀ cp ∈ w.params,
      (∀ f, cp.ubound = some f → (f i).1 ≤ mu ∧ mu ≤ (f i).2) ∧
      (∀ f, cp.xbound = some f → (f i).1 ≤ mx ∧ mx ≤ (f i).2) :=
    fun cp hcp => ⟨hub cp hcp, hxb cp hcp⟩
  by_cases hN : i < w.Nstages
  · have hasm : assemble w (initState w) i xm xM xnm xnM =
        ((w.params.foldl (applyC i)
          (rows01Write (lhReset (initState w) xm xM) (w.deltas i) xnm xnM, 2)).1, none) := by
      unfold assemble
      rw [if_pos hN, if_pos hcols2]
    rw [hasm]
    have hbl1 : (rows01Write (lhReset (initState w) xm xM) (w.deltas i) xnm xnM).l.1 ≤ mu := by
      rw [rows01Write_l]; exact hl1
    have hbh1 : mu ≤ (rows01Write (lhReset (initState w) xm xM) (w.deltas i) xnm xnM).h.1 := by
      rw [rows01Write_h]; exact hh1
    have hbl2 : (rows01Write (lhReset (initState w) xm xM) (w.deltas i) xnm xnM).l.2 ≤ mx := by
      rw [rows01Write_l]; exact hl2
    have hbh2 : mx ≤ (rows01Write (lhReset (initState w) xm xM) (w.deltas i) xnm xnM).h.2 := by
      rw [rows01Write_h]; exact hh2
    have hflh := foldl_applyC_lh i w.params mu mx hcons
      (rows01Write (lhReset (initState w) xm xM) (w.deltas i) xnm xnM, 2) hbl1 hbh1 hbl2 hbh2
    have hlA : ∀ r, (rows01Write (lhReset (initState w) xm xM)
        (w.deltas i) xnm xnM, 2).1.lA r = -QPOASES_INFTY := by
      intro r
      match r with
      | 0 => exact rows01Write_lA0 _ _ _ _
      | 1 => exact rows01Write_lA1 _ _ _ _
      | (n + 2) =>
        show (rows01Write _ _ _ _).lA (n + 2) = _
        rw [rows01Write_lA_ge2 _ _ _ _ _ (by omega), lhReset_lA]
        rfl
    have hhA : ∀ r, -QPOASES_INFTY ≤ (rows01Write (lhReset (initState w) xm xM)
        (w.deltas i) xnm xnM, 2).1.hA r := by
      intro r
      match r with
      | 0 =>
        show -QPOASES_INFTY ≤ (rows01Write _ _ _ _).hA 0
        rw [rows01Write_hA0]
        cases xnm with
        | none => linarith [QPOASES_INFTY_pos]
        | some v => have := hxnm v rfl; simp only []; linarith
      | 1 =>
        show -QPOASES_INFTY ≤ (rows01Write _ _ _ _).hA 1
        rw [rows01Write_hA1]
        cases xnM with
        | none => linarith [QPOASES_INFTY_pos]
        | some v => exact hxnM v rfl
      | (n + 2) =>
        show -QPOASES_INFTY ≤ (rows01Write _ _ _ _).hA (n + 2)
        rw [rows01Write_hA_ge2 _ _ _ _ _ (by omega), lhReset_hA]
        show -QPOASES_INFTY ≤ QPOASES_INFTY
        linarith [QPOASES_INFTY_pos]
    have hla := foldl_applyC_lA_all i w.params _ hlA
    have hha := foldl_applyC_hA_ge i w.params hblk _ hhA
    refine ⟨rfl, le_trans hflh.1 hflh.2.1, le_trans hflh.2.2.1 hflh.2.2.2, ?_⟩
    intro r
    rw [hla r]
    exact hha r
  · have hasm : assemble w (initState w) i xm xM xnm xnM =
        ((w.params.foldl (applyC i) (lhReset (initState w) xm xM, 2)).1, none) := by
      unfold assemble
      rw [if_neg hN]
    rw [hasm]
    have hflh := foldl_applyC_lh i w.params mu mx hcons
      (lhReset (initState w) xm xM, 2) hl1 hh1 hl2 hh2
    have hlA : ∀ r, (lhReset (initState w) xm xM, 2).1.lA r = -QPOASES_INFTY := by
      intro r
      show (lhReset (initState w) xm xM).lA r = _
      rw [lhReset_lA]
      rfl
    have hhA : ∀ r, -QPOASES_INFTY ≤ (lhReset (initState w) xm xM, 2).1.hA r := by
      intro r
      show -QPOASES_INFTY ≤ (lhReset (initState w) xm xM).hA r
      rw [lhReset_hA]
      show -QPOASES_INFTY ≤ QPOASES_INFTY
      linarith [QPOASES_INFTY_pos]
    have hla := foldl_applyC_lA_all i w.params _ hlA
    have hha := foldl_applyC_hA_ge i w.params hblk _ hhA
    refine ⟨rfl, le_trans hflh.1 hflh.2.1, le_trans hflh.2.2.1 hflh.2.2.2, ?_⟩
    intro r
    rw [hla r]
    exact hha r

/- A minimal wrapper with no constraints, used to instantiate several of the
general theorems on concrete inputs. -/

def wNoC : Wrapper where
  Nstages := 1
  deltas := fun _ => 1
  params := []
  disableCheck := false

/-- C7 witness: the amended consistency theorem applied at a concrete input
(x_min = 0, x_max = 1, x_next_max = 1, common points mu = 0, mx = 1/2). -/
theorem C7_witness :
    (assemble wNoC (initState wNoC) 0 (some 0) (some 1) none (some 1)).2 = none ∧
    (assemble wNoC (initState wNoC) 0 (some 0) (some 1) none (some 1)).1.l.1 ≤
      (assemble wNoC (initState wNoC) 0 (some 0) (some 1) none (some 1)).1.h.1 ∧
    (assemble wNoC (initState wNoC) 0 (some 0) (some 1) none (some 1)).1.l.2 ≤
      (assemble wNoC (initState wNoC) 0 (some 0) (some 1) none (some 1)).1.h.2 ∧
    ∀ r, (assemble wNoC (initState wNoC) 0 (some 0) (some 1) none (some 1)).1.lA r ≤
      (assemble wNoC (initState wNoC) 0 (some 0) (some 1) none (some 1)).1.hA r :=
  C7_bounds_consistent wNoC 0 (some 0) (some 1) none (some 1) 0 (1/2)
    (by with_unfolding_all decide) (by with_unfolding_all decide)
    (by with_unfolding_all decide) (by with_unfolding_all decide)
    (by with_unfolding_all decide)
    (by intro v hv; cases hv; with_unfolding_all decide)
    (by intro v hv; cases hv; with_unfolding_all decide)
    (by intro v hv; cases hv)
    (by intro v hv; cases hv; with_unfolding_all decide)
    (by intro cp hcp; simp [wNoC] at hcp)
    (by intro cp hcp; simp [wNoC] at hcp)
    (by intro cp hcp; simp [wNoC] at hcp)

/-- C5: for every stage i < N (with the two-column buffer of a wrapper with
no extra variables), the assembler writes the two leading next-state rows
using delta[i]: row 0 has coefficients [-2 delta, -1] with upper bound
-x_next_min, row 1 has coefficients [2 delta, 1] with upper bound
x_next_max; an absent next-state bound yields a zeroed row with upper bound
+INFTY rather than removing the row, and both lower bounds are -INFTY. -/
theorem C5_next_state_rows (w : Wrapper) (s0 : SolverState) (i : ℕ)
    (xm xM xnm xnM : Option ℚ) (hN : i < w.Nstages) (hcols : s0.Acols = 2) :
    (assemble w s0 i xm xM xnm xnM).1.A 0
        = (match xnm with | some _ => (-(2 * w.deltas i), -1) | none => ((0 : ℚ), (0 : ℚ))) ∧
    (assemble w s0 i xm xM xnm xnM).1.hA 0
        = (match xnm with | some v => -v | none => QPOASES_INFTY) ∧
    (assemble w s0 i xm xM xnm xnM).1.lA 0 = -QPOASES_INFTY ∧
    (assemble w s0 i xm xM xnm xnM).1.A 1
        = (match xnM with | some _ => (2 * w.deltas i, 1) | none => ((0 : ℚ), (0 : ℚ))) ∧
    (assemble w s0 i xm xM xnm xnM).1.hA 1
        = (match xnM with | some v => v | none => QPOASES_INFTY) ∧
    (assemble w s0 i xm xM xnm xnM).1.lA 1 = -QPOASES_INFTY :=
  assemble_rows01 w s0 i xm xM xnm xnM hN hcols

/-- C5 witness: the next-state rows at stage 0 of the constraint-free
wrapper, with x_next_min = 3 supplied and x_next_max absent. -/
theorem C5_witness :
    (assemble wNoC (initState wNoC) 0 none none (some 3) none).1.A 0
        = (-(2 * wNoC.deltas 0), -1) ∧
    (assemble wNoC (initState wNoC) 0 none none (some 3) none).1.hA 0 = -3 ∧
    (assemble wNoC (initState wNoC) 0 none none (some 3) none).1.lA 0 = -QPOASES_INFTY ∧
    (assemble wNoC (initState wNoC) 0 none none (some 3) none).1.A 1 = ((0 : ℚ), (0 : ℚ)) ∧
    (assemble wNoC (initState wNoC) 0 none none (some 3) none).1.hA 1 = QPOASES_INFTY ∧
    (assemble wNoC (initState wNoC) 0 none none (some 3) none).1.lA 1 = -QPOASES_INFTY :=
  C5_next_state_rows wNoC (initState wNoC) 0 none none (some 3) none
    (by decide) (by decide)

/-- C8: for every call in which x_min or x_max is absent (None), the
evaluation of abs(x_min - x_max) on line 153 raises a TypeError, so the call
terminates with an exception instead of returning a solution or the NaN
vector (stated for calls that pass the stage assertion and whose buffer has
two columns, so that no earlier numpy error preempts line 153). -/
theorem C8_absent_bound_typeError (w : Wrapper) (be : Backend) (s0 : SolverState) (i : ℕ)
    (Hq : Option ((ℚ × ℚ) × (ℚ × ℚ))) (g : ℚ × ℚ) (xm xM xnm xnM : Option ℚ)
    (hi : i ≤ w.Nstages) (hcols : s0.Acols = 2)
    (hnone : xm = none ∨ xM = none) :
    (solve_stagewise_optim w be s0 i Hq g xm xM xnm xnM).1
      = Except.error PyError.typeError := by
  have herr : (assemble w s0 i xm xM xnm xnM).2 = none := by
    rw [assemble_err]; simp [hcols]
  rcases hnone with h | h
  · subst h
    cases xM <;> simp [solve_stagewise_optim, herr, hi]
  · subst h
    cases xm <;> simp [solve_stagewise_optim, herr, hi]

/-- C8 witness: a call with x_max absent ends in a TypeError. -/
theorem C8_witness :
    (solve_stagewise_optim wNoC (fun _ _ _ => none) (initState wNoC) 0 none (1, 1)
      (some 0) none none none).1 = Except.error PyError.typeError :=
  C8_absent_bound_typeError wNoC (fun _ _ _ => none) (initState wNoC) 0 none (1, 1)
    (some 0) none none none (by decide) (by decide) (Or.inr rfl)

/-- C9: at the final stage i = N, when the degenerate fallback triggers
(x_min and x_max present and equal within the tolerance, H absent, exactly
two variables), the fallback return expression references the local delta,
which is only assigned when i < N, so the call raises an unbound-local error
instead of returning a result. -/
theorem C9_fallback_unbound_delta (w : Wrapper) (be : Backend) (s0 : SolverState)
    (Hq : Option ((ℚ × ℚ) × (ℚ × ℚ))) (g : ℚ × ℚ) (xm xM : ℚ) (xnm xnM : Option ℚ)
    (htol : pabs (xm - xM) < eps) (hH : Hq = none) (hnV : w.nV = 2) :
    (solve_stagewise_optim w be s0 w.Nstages Hq g (some xm) (some xM) xnm xnM).1
      = Except.error PyError.unboundLocal := by
  have herr : (assemble w s0 w.Nstages (some xm) (some xM) xnm xnM).2 = none := by
    rw [assemble_err]; simp
  simp [solve_stagewise_optim, herr, htol, hH, hnV]

/-- C9 witness: the degenerate fallback at the final stage of the
constraint-free wrapper raises the unbound-local error. -/
theorem C9_witness :
    (solve_stagewise_optim wNoC (fun _ _ _ => none) (initState wNoC) wNoC.Nstages none (1, 1)
      (some 5) (some 5) none none).1 = Except.error PyError.unboundLocal :=
  C9_fallback_unbound_delta wNoC (fun _ _ _ => none) (initState wNoC) none (1, 1) 5 5 none none
    (by with_unfolding_all decide) rfl (by decide)

/-- C10: for a wrapper whose constraints declare extra variables
(nV = 2 + sum(extra_vars) > 2), every call whose state bounds are supplied
raises a numpy shape ValueError before any solution is produced: at i < N
when the two-element next-state row is assigned into an nV-column row, and
at i = N when the (nC, nV) buffer is multiplied by the 2 x 2 variable-scale
matrix in the scaling step; so the wrapper only produces solutions for
problems with exactly the two core variables. -/
theorem C10_extra_vars_valueError (w : Wrapper) (be : Backend) (s0 : SolverState) (i : ℕ)
    (Hq : Option ((ℚ × ℚ) × (ℚ × ℚ))) (g : ℚ × ℚ) (xm xM : ℚ) (xnm xnM : Option ℚ)
    (hi : i ≤ w.Nstages) (hcols : s0.Acols = w.nV) (hnV : 2 < w.nV) :
    (solve_stagewise_optim w be s0 i Hq g (some xm) (some xM) xnm xnM).1
      = Except.error PyError.valueError := by
  have hc2 : ¬ s0.Acols = 2 := by omega
  have hv2 : ¬ w.nV = 2 := by omega
  by_cases hN : i < w.Nstages
  · have herr : (assemble w s0 i (some xm) (some xM) xnm xnM).2 = some PyError.valueError := by
      rw [assemble_err]; simp [hN, hc2]
    simp [solve_stagewise_optim, herr, hi]
  · have herr : (assemble w s0 i (some xm) (some xM) xnm xnM).2 = none := by
      rw [assemble_err]; simp [hN]
    have hacols : (assemble w s0 i (some xm) (some xM) xnm xnM).1.Acols = s0.Acols :=
      (assemble_misc w s0 i (some xm) (some xM) xnm xnM).1
    simp [solve_stagewise_optim, herr, hi, hv2, hacols, hc2]

/- A wrapper with one constraint declaring one extra variable, so nV = 3. -/

def cpXtra : CParams where
  hasA := false
  F := fun _ => []
  a := fun _ => []
  b := fun _ => []
  c := fun _ => []
  v := fun _ => []
  ubound := none
  xbound := none
  extraVars := 1

def wXtra : Wrapper where
  Nstages := 1
  deltas := fun _ => 1
  params := [cpXtra]
  disableCheck := false

/-- C10 witness: with nV = 3, the call at stage 0 raises the ValueError. -/
theorem C10_witness :
    (solve_stagewise_optim wXtra (fun _ _ _ => none) (initState wXtra) 0 none (1, 1)
      (some 0) (some 1) none none).1 = Except.error PyError.valueError :=
  C10_extra_vars_valueError wXtra (fun _ _ _ => none) (initState wXtra) 0 none (1, 1)
    0 1 none none (by decide) rfl (by decide)

/-- C3 (amended): whenever the degenerate fallback triggers at a stage
i < N, solve_stagewise_optim returns the boundary u_max of the feasible
u-interval when g[0] < 0 and u_min otherwise, but the second (state)
component of the returned vector is x_min + 2 u delta[i] evaluated at the
chosen u - the propagated next state - rather than x_min itself. -/
theorem C3_degenerate_fallback (w : Wrapper) (be : Backend) (s0 : SolverState) (i : ℕ)
    (Hq : Option ((ℚ × ℚ) × (ℚ × ℚ))) (g : ℚ × ℚ) (xm xM : ℚ) (xnm xnM : Option ℚ)
    (hi : i < w.Nstages)
    (hasm : (assemble w s0 i (some xm) (some xM) xnm xnM).2 = none)
    (htol : pabs (xm - xM) < eps) (hH : Hq = none) (hnV : w.nV = 2) :
    (solve_stagewise_optim w be s0 i Hq g (some xm) (some xM) xnm xnM).1
      = Except.ok [PyFloat.num (if g.1 < 0
            then (fallback_u w (assemble w s0 i (some xm) (some xM) xnm xnM).1 xm).2
            else (fallback_u w (assemble w s0 i (some xm) (some xM) xnm xnM).1 xm).1),
          PyFloat.num (xm + 2 * (if g.1 < 0
            then (fallback_u w (assemble w s0 i (some xm) (some xM) xnm xnM).1 xm).2
            else (fallback_u w (assemble w s0 i (some xm) (some xM) xnm xnM).1 xm).1)
            * w.deltas i)] := by
  have hile : i ≤ w.Nstages := Nat.le_of_lt hi
  simp [solve_stagewise_optim, hasm, htol, hH, hnV, hile, hi]

instance {e a : Type} [DecidableEq e] [DecidableEq a] : DecidableEq (Except e a) := fun x y =>
  match x, y with
  | .error u, .error v =>
    if h : u = v then isTrue (by rw [h]) else isFalse (by intro hh; cases hh; exact h rfl)
  | .ok u, .ok v =>
    if h : u = v then isTrue (by rw [h]) else isFalse (by intro hh; cases hh; exact h rfl)
  | .error _, .ok _ => isFalse (by intro hh; cases hh)
  | .ok _, .error _ => isFalse (by intro hh; cases hh)

/- The concrete scenario of the degenerate-fallback claim: one constraint
contributing the single row u <= 2 (F = [[1]], a = [1], b = [0], c = [0],
v = [2]), two variables, x_min = x_max = 1/2, linear objective g = (1, 0),
delta = 1/2. -/

def cpC3 : CParams where
  hasA := true
  F := fun _ => [[1]]
  a := fun _ => [1]
  b := fun _ => [0]
  c := fun _ => [0]
  v := fun _ => [2]
  ubound := none
  xbound := none
  extraVars := 0

def wC3 : Wrapper where
  Nstages := 1
  deltas := fun _ => 1 / 2
  params := [cpC3]
  disableCheck := false

/-- C3 counterexample: in the concrete scenario (x_min = x_max = 1/2,
H = None, nV = 2, one constraint row u <= 2, g = (1, 0)) the fallback
returns u_min = -QPOASES_INFTY (the single row only bounds u from above)
and the second component is x_min + 2 u_min delta = 1/2 - QPOASES_INFTY,
which is not the claimed x = 1/2. -/
theorem C3_counterexample :
    (solve_stagewise_optim wC3 (fun _ _ _ => none) (initState wC3) 0 none (1, 0)
        (some (1 / 2)) (some (1 / 2)) none none).1
      = Except.ok [PyFloat.num (-QPOASES_INFTY), PyFloat.num (1 / 2 - QPOASES_INFTY)] ∧
    (1 / 2 - QPOASES_INFTY : ℚ) ≠ 1 / 2 := by
  constructor
  · norm_num [solve_stagewise_optim, assemble, lhReset, rows01Write, applyC, tightenBounds,
      fallback_u, wC3, cpC3, initState, Wrapper.nV, Wrapper.nC, CParams.rowCount, updF,
      pabs, eps, QPOASES_INFTY, hABlock, matVec, dotQ, List.range_succ]
  · norm_num [QPOASES_INFTY]

/-- C3 witness: the amended fallback theorem applied in the concrete
scenario with the objective g = (-1, 0), which selects u_max. -/
theorem C3_witness :
    (solve_stagewise_optim wC3 (fun _ _ _ => none) (initState wC3) 0 none (-1, 0)
        (some (1 / 2)) (some (1 / 2)) none none).1
      = Except.ok [PyFloat.num (if (-1 : ℚ) < 0
            then (fallback_u wC3 (assemble wC3 (initState wC3) 0 (some (1 / 2)) (some (1 / 2))
              none none).1 (1 / 2)).2
            else (fallback_u wC3 (assemble wC3 (initState wC3) 0 (some (1 / 2)) (some (1 / 2))
              none none).1 (1 / 2)).1),
          PyFloat.num (1 / 2 + 2 * (if (-1 : ℚ) < 0
            then (fallback_u wC3 (assemble wC3 (initState wC3) 0 (some (1 / 2)) (some (1 / 2))
              none none).1 (1 / 2)).2
            else (fallback_u wC3 (assemble wC3 (initState wC3) 0 (some (1 / 2)) (some (1 / 2))
              none none).1 (1 / 2)).1)
            * wC3.deltas 0)] :=
  C3_degenerate_fallback wC3 (fun _ _ _ => none) (initState wC3) 0 none (-1, 0) (1 / 2) (1 / 2)
    none none (by decide) (by with_unfolding_all decide) (by with_unfolding_all decide)
    rfl (by decide)

/- The backend path: scaling preserves the sign of g[1], and the solve
reduces to dispatchSolve on the scaled problem. -/

theorem foldl_add_pabs_le (f : ℕ → ℚ) (l : List ℕ) :
    ∀ acc : ℚ, acc ≤ l.foldl (fun a r => a + pabs (f r)) acc := by
  induction l with
  | nil => intro acc; exact le_refl acc
  | cons x xs ih =>
    intro acc
    simp only [List.foldl_cons]
    calc acc ≤ acc + pabs (f x) := by linarith [pabs_nonneg (f x)]
    _ ≤ _ := ih _

theorem colAbsSum_nonneg (w : Wrapper) (A : ℕ → ℚ × ℚ) (fst : Bool) :
    0 ≤ colAbsSum w A fst :=
  foldl_add_pabs_le (fun r => if fst then (A r).1 else (A r).2) ((List.range w.nC).drop 2) 0

theorem scaledPass_scales_pos (w : Wrapper) (s : SolverState) (H : (ℚ × ℚ) × (ℚ × ℚ))
    (g : ℚ × ℚ) :
    0 < (scaledPass w s H g).2.1.1 ∧ 0 < (scaledPass w s H g).2.1.2 := by
  have h1 := colAbsSum_nonneg w s.A true
  have h2 := colAbsSum_nonneg w s.A false
  have hs : (0 : ℚ) < smallReg := by norm_num [smallReg]
  constructor <;>
  · show 0 < 1 / _
    apply one_div_pos.mpr
    linarith

theorem scaledPass_g2 (w : Wrapper) (s : SolverState) (H : (ℚ × ℚ) × (ℚ × ℚ)) (g : ℚ × ℚ) :
    (scaledPass w s H g).1.g.2 = g.2 * (scaledPass w s H g).2.1.2 := rfl

theorem scaledPass_g2_pos_iff (w : Wrapper) (s : SolverState) (H : (ℚ × ℚ) × (ℚ × ℚ))
    (g : ℚ × ℚ) :
    0 < (scaledPass w s H g).1.g.2 ↔ 0 < g.2 := by
  rw [scaledPass_g2]
  have hc := (scaledPass_scales_pos w s H g).2
  constructor
  · intro h
    nlinarith
  · intro h
    exact mul_pos h hc

theorem scaledPass_minRecent (w : Wrapper) (s : SolverState) (H : (ℚ × ℚ) × (ℚ × ℚ))
    (g : ℚ × ℚ) :
    (scaledPass w s H g).2.2.minRecent = s.minRecent := rfl

theorem scaledPass_maxRecent (w : Wrapper) (s : SolverState) (H : (ℚ × ℚ) × (ℚ × ℚ))
    (g : ℚ × ℚ) :
    (scaledPass w s H g).2.2.maxRecent = s.maxRecent := rfl

theorem solve_backend_eq (w : Wrapper) (be : Backend) (s0 : SolverState) (i : ℕ)
    (Hq : Option ((ℚ × ℚ) × (ℚ × ℚ))) (g : ℚ × ℚ) (xm xM : ℚ) (xnm xnM : Option ℚ)
    (hi : i ≤ w.Nstages)
    (hasm : (assemble w s0 i (some xm) (some xM) xnm xnM).2 = none)
    (hfb : ¬ (pabs (xm - xM) < eps ∧ Hq = none ∧ w.nV = 2))
    (hcols : (assemble w s0 i (some xm) (some xM) xnm xnM).1.Acols = 2) :
    solve_stagewise_optim w be s0 i Hq g (some xm) (some xM) xnm xnM =
      dispatchSolve w be
        (scaledPass w (assemble w s0 i (some xm) (some xM) xnm xnM).1
          (Hq.getD ((0, 0), (0, 0))) g).2.2 i
        (scaledPass w (assemble w s0 i (some xm) (some xM) xnm xnM).1
          (Hq.getD ((0, 0), (0, 0))) g).1
        (scaledPass w (assemble w s0 i (some xm) (some xM) xnm xnM).1
          (Hq.getD ((0, 0), (0, 0))) g).2.1 := by
  simp [solve_stagewise_optim, hasm, hfb, hcols, hi]

/-- C6: for every call that reaches the backend dispatch (assembly clean,
state bounds present, fallback not triggered, two-column buffer), the
minimizing session (first backend flag true) is used exactly when g[1] is
positive and the maximizing session otherwise - the variable scaling is
positive, so the sign test on the scaled g[1] agrees with the input g[1];
the chosen session is cold-started (second flag true) exactly when i
differs from that session's recent index by more than 1; and afterwards
that session's recent index is set to i while the other is unchanged. -/
theorem C6_session_dispatch (w : Wrapper) (be : Backend) (s0 : SolverState) (i : ℕ)
    (Hq : Option ((ℚ × ℚ) × (ℚ × ℚ))) (g : ℚ × ℚ) (xm xM : ℚ) (xnm xnM : Option ℚ)
    (hi : i ≤ w.Nstages)
    (hasm : (assemble w s0 i (some xm) (some xM) xnm xnM).2 = none)
    (hfb : ¬ (pabs (xm - xM) < eps ∧ Hq = none ∧ w.nV = 2))
    (hcols : (assemble w s0 i (some xm) (some xM) xnm xnM).1.Acols = 2) :
    (solve_stagewise_optim w be s0 i Hq g (some xm) (some xM) xnm xnM).2.minRecent
        = (if 0 < g.2 then (i : ℤ) else s0.minRecent) ∧
    (solve_stagewise_optim w be s0 i Hq g (some xm) (some xM) xnm xnM).2.maxRecent
        = (if 0 < g.2 then s0.maxRecent else (i : ℤ)) ∧
    (solve_stagewise_optim w be s0 i Hq g (some xm) (some xM) xnm xnM).1
        = Except.ok (finalize w
            (scaledPass w (assemble w s0 i (some xm) (some xM) xnm xnM).1
              (Hq.getD ((0, 0), (0, 0))) g).2.1
            (scaledPass w (assemble w s0 i (some xm) (some xM) xnm xnM).1
              (Hq.getD ((0, 0), (0, 0))) g).1
            (be (decide (0 < g.2))
              (decide (((if 0 < g.2 then s0.minRecent else s0.maxRecent) - (i : ℤ)).natAbs > 1))
              (scaledPass w (assemble w s0 i (some xm) (some xM) xnm xnM).1
                (Hq.getD ((0, 0), (0, 0))) g).1)) := by
  rw [solve_backend_eq w be s0 i Hq g xm xM xnm xnM hi hasm hfb hcols]
  have hmin : (scaledPass w (assemble w s0 i (some xm) (some xM) xnm xnM).1
      (Hq.getD ((0, 0), (0, 0))) g).2.2.minRecent = s0.minRecent := by
    rw [scaledPass_minRecent]
    exact (assemble_misc w s0 i (some xm) (some xM) xnm xnM).2.1
  have hmax : (scaledPass w (assemble w s0 i (some xm) (some xM) xnm xnM).1
      (Hq.getD ((0, 0), (0, 0))) g).2.2.maxRecent = s0.maxRecent := by
    rw [scaledPass_maxRecent]
    exact (assemble_misc w s0 i (some xm) (some xM) xnm xnM).2.2
  unfold dispatchSolve
  by_cases hg : 0 < g.2
  · have hg2 : 0 < (scaledPass w (assemble w s0 i (some xm) (some xM) xnm xnM).1
        (Hq.getD ((0, 0), (0, 0))) g).1.g.2 :=
      (scaledPass_g2_pos_iff w _ _ g).mpr hg
    rw [if_pos hg2]
    simp [hg, hmin, hmax, -Prod.mk_zero_zero]
  · have hg2 : ¬ 0 < (scaledPass w (assemble w s0 i (some xm) (some xM) xnm xnM).1
        (Hq.getD ((0, 0), (0, 0))) g).1.g.2 := by
      rw [scaledPass_g2_pos_iff]
      exact hg
    rw [if_neg hg2]
    simp [hg, hmin, hmax, -Prod.mk_zero_zero]

/-- C6 witness: the dispatch theorem applied to the constraint-free wrapper
at stage 0 with g = (1, 1) and an always-failing backend. -/
theorem C6_witness :
    (solve_stagewise_optim wNoC (fun _ _ _ => none) (initState wNoC) 0 none (1, 1)
        (some 0) (some 1) none none).2.minRecent
      = (if (0 : ℚ) < 1 then (0 : ℤ) else (initState wNoC).minRecent) ∧
    (solve_stagewise_optim wNoC (fun _ _ _ => none) (initState wNoC) 0 none (1, 1)
        (some 0) (some 1) none none).2.maxRecent
      = (if (0 : ℚ) < 1 then (initState wNoC).maxRecent else (0 : ℤ)) ∧
    (solve_stagewise_optim wNoC (fun _ _ _ => none) (initState wNoC) 0 none (1, 1)
        (some 0) (some 1) none none).1
      = Except.ok (finalize wNoC
          (scaledPass wNoC (assemble wNoC (initState wNoC) 0 (some 0) (some 1) none none).1
            ((0, 0), (0, 0)) (1, 1)).2.1
          (scaledPass wNoC (assemble wNoC (initState wNoC) 0 (some 0) (some 1) none none).1
            ((0, 0), (0, 0)) (1, 1)).1
          none) :=
  C6_session_dispatch wNoC (fun _ _ _ => none) (initState wNoC) 0 none (1, 1) 0 1 none none
    (by decide) (by decide)
    (by intro h; exact absurd h.1 (by with_unfolding_all decide))
    (by decide)

theorem solve_result_be (w : Wrapper) (be : Backend) (s0 : SolverState) (i : ℕ)
    (Hq : Option ((ℚ × ℚ) × (ℚ × ℚ))) (g : ℚ × ℚ) (xm xM : ℚ) (xnm xnM : Option ℚ)
    (hi : i ≤ w.Nstages)
    (hasm : (assemble w s0 i (some xm) (some xM) xnm xnM).2 = none)
    (hfb : ¬ (pabs (xm - xM) < eps ∧ Hq = none ∧ w.nV = 2))
    (hcols : (assemble w s0 i (some xm) (some xM) xnm xnM).1.Acols = 2) :
    (solve_stagewise_optim w be s0 i Hq g (some xm) (some xM) xnm xnM).1
      = Except.ok (finalize w
          (scaledPass w (assemble w s0 i (some xm) (some xM) xnm xnM).1
            (Hq.getD ((0, 0), (0, 0))) g).2.1
          (scaledPass w (assemble w s0 i (some xm) (some xM) xnm xnM).1
            (Hq.getD ((0, 0), (0, 0))) g).1
          (be (decide (0 < g.2))
            (decide (((if 0 < g.2 then s0.minRecent else s0.maxRecent) - (i : ℤ)).natAbs > 1))
            (scaledPass w (assemble w s0 i (some xm) (some xM) xnm xnM).1
              (Hq.getD ((0, 0), (0, 0))) g).1)) := by
  rw [solve_backend_eq w be s0 i Hq g xm xM xnm xnM hi hasm hfb hcols]
  have hmin : (scaledPass w (assemble w s0 i (some xm) (some xM) xnm xnM).1
      (Hq.getD ((0, 0), (0, 0))) g).2.2.minRecent = s0.minRecent := by
    rw [scaledPass_minRecent]
    exact (assemble_misc w s0 i (some xm) (some xM) xnm xnM).2.1
  have hmax : (scaledPass w (assemble w s0 i (some xm) (some xM) xnm xnM).1
      (Hq.getD ((0, 0), (0, 0))) g).2.2.maxRecent = s0.maxRecent := by
    rw [scaledPass_maxRecent]
    exact (assemble_misc w s0 i (some xm) (some xM) xnm xnM).2.2
  unfold dispatchSolve
  by_cases hg : 0 < g.2
  · have hg2 : 0 < (scaledPass w (assemble w s0 i (some xm) (some xM) xnm xnM).1
        (Hq.getD ((0, 0), (0, 0))) g).1.g.2 :=
      (scaledPass_g2_pos_iff w _ _ g).mpr hg
    rw [if_pos hg2]
    simp [hg, hmin, hmax, -Prod.mk_zero_zero]
  · have hg2 : ¬ 0 < (scaledPass w (assemble w s0 i (some xm) (some xM) xnm xnM).1
        (Hq.getD ((0, 0), (0, 0))) g).1.g.2 := by
      rw [scaledPass_g2_pos_iff]
      exact hg
    rw [if_neg hg2]
    simp [hg, hmin, hmax, -Prod.mk_zero_zero]

/-- C1: for every call that reaches the backend (assembly clean, bounds
present, fallback not triggered, two-column buffer), if the dispatched
backend call fails, or reports success while checking is enabled and the
feasibility re-check on the scaled problem rejects the solution, then
solve_stagewise_optim returns the all-NaN vector of length nV
(get_no_vars()) and never a partial or unchecked numeric result. -/
theorem C1_nan_on_failure (w : Wrapper) (be : Backend) (s0 : SolverState) (i : ℕ)
    (Hq : Option ((ℚ × ℚ) × (ℚ × ℚ))) (g : ℚ × ℚ) (xm xM : ℚ) (xnm xnM : Option ℚ)
    (hi : i ≤ w.Nstages)
    (hasm : (assemble w s0 i (some xm) (some xM) xnm xnM).2 = none)
    (hfb : ¬ (pabs (xm - xM) < eps ∧ Hq = none ∧ w.nV = 2))
    (hcols : (assemble w s0 i (some xm) (some xM) xnm xnM).1.Acols = 2)
    (hfail : ∀ var, be (decide (0 < g.2))
        (decide (((if 0 < g.2 then s0.minRecent else s0.maxRecent) - (i : ℤ)).natAbs > 1))
        (scaledPass w (assemble w s0 i (some xm) (some xM) xnm xnM).1
          (Hq.getD ((0, 0), (0, 0))) g).1 = some var →
      w.disableCheck = false ∧
      feasCheck (scaledPass w (assemble w s0 i (some xm) (some xM) xnm xnM).1
        (Hq.getD ((0, 0), (0, 0))) g).1 var = false) :
    (solve_stagewise_optim w be s0 i Hq g (some xm) (some xM) xnm xnM).1
      = Except.ok (nanVec w.nV) := by
  rw [solve_result_be w be s0 i Hq g xm xM xnm xnM hi hasm hfb hcols]
  cases hres : be (decide (0 < g.2))
      (decide (((if 0 < g.2 then s0.minRecent else s0.maxRecent) - (i : ℤ)).natAbs > 1))
      (scaledPass w (assemble w s0 i (some xm) (some xM) xnm xnM).1
        (Hq.getD ((0, 0), (0, 0))) g).1 with
  | none => rfl
  | some var =>
    obtain ⟨hd, hc⟩ := hfail var hres
    simp [finalize, hd, hc, -Prod.mk_zero_zero]

/-- C1 witness: an always-failing backend yields the all-NaN vector. -/
theorem C1_witness :
    (solve_stagewise_optim wNoC (fun _ _ _ => none) (initState wNoC) 0 none (1, 1)
        (some 0) (some 10) none none).1 = Except.ok (nanVec wNoC.nV) :=
  C1_nan_on_failure wNoC (fun _ _ _ => none) (initState wNoC) 0 none (1, 1) 0 10 none none
    (by decide) (by decide)
    (by intro h; exact absurd h.1 (by with_unfolding_all decide))
    (by decide)
    (fun var h => Option.noConfusion h)

/-- C2 (amended): when the backend reports success and checking is enabled,
the feasibility verification is performed on the SCALED problem data and the
scaled primal solution - l <= var + eps, var <= h + eps,
A var <= hA + eps and A var >= lA - eps all refer to the rebound scaled
buffers - not on the unscaled original units; the returned numeric value is
var multiplied back by the variable scales. -/
theorem C2_check_on_scaled (w : Wrapper) (be : Backend) (s0 : SolverState) (i : ℕ)
    (Hq : Option ((ℚ × ℚ) × (ℚ × ℚ))) (g : ℚ × ℚ) (xm xM : ℚ) (xnm xnM : Option ℚ)
    (var : ℚ × ℚ)
    (hi : i ≤ w.Nstages)
    (hasm : (assemble w s0 i (some xm) (some xM) xnm xnM).2 = none)
    (hfb : ¬ (pabs (xm - xM) < eps ∧ Hq = none ∧ w.nV = 2))
    (hcols : (assemble w s0 i (some xm) (some xM) xnm xnM).1.Acols = 2)
    (hdc : w.disableCheck = false)
    (hbe : be (decide (0 < g.2))
        (decide (((if 0 < g.2 then s0.minRecent else s0.maxRecent) - (i : ℤ)).natAbs > 1))
        (scaledPass w (assemble w s0 i (some xm) (some xM) xnm xnM).1
          (Hq.getD ((0, 0), (0, 0))) g).1 = some var) :
    (solve_stagewise_optim w be s0 i Hq g (some xm) (some xM) xnm xnM).1
      = Except.ok (if feasCheck (scaledPass w (assemble w s0 i (some xm) (some xM) xnm xnM).1
            (Hq.getD ((0, 0), (0, 0))) g).1 var
          then [PyFloat.num (var.1 * (scaledPass w
                  (assemble w s0 i (some xm) (some xM) xnm xnM).1
                  (Hq.getD ((0, 0), (0, 0))) g).2.1.1),
                PyFloat.num (var.2 * (scaledPass w
                  (assemble w s0 i (some xm) (some xM) xnm xnM).1
                  (Hq.getD ((0, 0), (0, 0))) g).2.1.2)]
          else nanVec w.nV) := by
  rw [solve_result_be w be s0 i Hq g xm xM xnm xnM hi hasm hfb hcols, hbe]
  simp only [finalize, hdc, Bool.false_eq_true, if_false]

/-- C2 witness: the amended theorem applied with a backend returning the
origin, which passes the scaled check. -/
theorem C2_witness :
    (solve_stagewise_optim wNoC (fun _ _ _ => some (0, 0)) (initState wNoC) 0 none (1, 1)
        (some 0) (some 10) none none).1
      = Except.ok (if feasCheck (scaledPass wNoC
            (assemble wNoC (initState wNoC) 0 (some 0) (some 10) none none).1
            ((0, 0), (0, 0)) (1, 1)).1 (0, 0)
          then [PyFloat.num ((0 : ℚ) * (scaledPass wNoC
                  (assemble wNoC (initState wNoC) 0 (some 0) (some 10) none none).1
                  ((0, 0), (0, 0)) (1, 1)).2.1.1),
                PyFloat.num ((0 : ℚ) * (scaledPass wNoC
                  (assemble wNoC (initState wNoC) 0 (some 0) (some 10) none none).1
                  ((0, 0), (0, 0)) (1, 1)).2.1.2)]
          else nanVec wNoC.nV) :=
  C2_check_on_scaled wNoC (fun _ _ _ => some (0, 0)) (initState wNoC) 0 none (1, 1) 0 10
    none none (0, 0)
    (by decide) (by decide)
    (by intro h; exact absurd h.1 (by with_unfolding_all decide))
    (by decide) rfl rfl

/- Backend used to exhibit that the check runs in scaled units: it returns a
scaled solution whose x entry exceeds the scaled upper bound by less than
eps in scaled units but by 1/2000 in original units. -/

def beC2 : Backend := fun _ _ _ => some (0, 1 / 10000 + 1 / 200000000)

/-- C2 counterexample: with no constraint rows the variable scale is
100000, the backend solution passes the scaled check (excess 1/200000000
< eps) and solve returns the numeric vector (0, 10 + 1/2000), yet the
verification the claim describes - in unscaled original units with the
fixed eps - rejects that returned solution, since 10 + 1/2000 > 10 + eps.
So the re-check is not performed in unscaled original units. -/
theorem C2_counterexample :
    (solve_stagewise_optim wNoC beC2 (initState wNoC) 0 none (1, 1)
        (some 0) (some 10) none none).1
      = Except.ok [PyFloat.num 0, PyFloat.num (10 + 1 / 2000)] ∧
    specCheckUnscaled wNoC (assemble wNoC (initState wNoC) 0 (some 0) (some 10) none none).1
      (0, 10 + 1 / 2000) = false := by
  constructor
  · norm_num [solve_stagewise_optim, assemble, lhReset, rows01Write, applyC, tightenBounds,
      scaledPass, dispatchSolve, finalize, feasCheck, colAbsSum, beC2, wNoC, initState,
      Wrapper.nV, Wrapper.nC, CParams.rowCount, updF, pabs, eps, smallReg, QPOASES_INFTY,
      List.range_succ, nanVec]
  · norm_num [specCheckUnscaled, assemble, lhReset, rows01Write, applyC, tightenBounds, wNoC,
      initState, Wrapper.nV, Wrapper.nC, CParams.rowCount, updF, pabs, eps, QPOASES_INFTY,
      List.range_succ]

/- Two-state agreement: assembly writes the same values into the same rows
regardless of the incoming buffer contents, which underlies idempotence of
consecutive identical calls at a non-final stage. -/

theorem applyC_entry (i : ℕ) (sc : SolverState × ℕ) (cp : CParams) (r : ℕ) :
    (applyC i sc cp).1.A r = (if cp.hasA ∧ sc.2 ≤ r ∧ r < sc.2 + (cp.F i).length
        then ((matVec (cp.F i) (cp.a i)).getD (r - sc.2) 0,
              (matVec (cp.F i) (cp.b i)).getD (r - sc.2) 0)
        else sc.1.A r) ∧
    (applyC i sc cp).1.lA r = (if cp.hasA ∧ sc.2 ≤ r ∧ r < sc.2 + (cp.F i).length
        then -QPOASES_INFTY else sc.1.lA r) ∧
    (applyC i sc cp).1.hA r = (if cp.hasA ∧ sc.2 ≤ r ∧ r < sc.2 + (cp.F i).length
        then (hABlock cp i).getD (r - sc.2) 0 else sc.1.hA r) := by
  unfold applyC
  by_cases hA : cp.hasA <;>
    simp [hA, tightenBounds_A, tightenBounds_lA, tightenBounds_hA]

theorem foldl_applyC_agree (i : ℕ) (ps : List CParams) :
    ∀ sc tc : SolverState × ℕ, sc.2 = tc.2 →
      sc.1.l = tc.1.l → sc.1.h = tc.1.h →
      (∀ r, r < sc.2 → sc.1.A r = tc.1.A r ∧ sc.1.lA r = tc.1.lA r ∧ sc.1.hA r = tc.1.hA r) →
      (ps.foldl (applyC i) sc).2 = (ps.foldl (applyC i) tc).2 ∧
      (ps.foldl (applyC i) sc).1.l = (ps.foldl (applyC i) tc).1.l ∧
      (ps.foldl (applyC i) sc).1.h = (ps.foldl (applyC i) tc).1.h ∧
      ∀ r, r < (ps.foldl (applyC i) sc).2 →
        ((ps.foldl (applyC i) sc).1.A r = (ps.foldl (applyC i) tc).1.A r ∧
         (ps.foldl (applyC i) sc).1.lA r = (ps.foldl (applyC i) tc).1.lA r ∧
         (ps.foldl (applyC i) sc).1.hA r = (ps.foldl (applyC i) tc).1.hA r) := by
  induction ps with
  | nil =>
    intro sc tc h2 hl hh hag
    exact ⟨h2, hl, hh, fun r hr => hag r hr⟩
  | cons cp ps ih =>
    intro sc tc h2 hl hh hag
    simp only [List.foldl_cons]
    apply ih
    · rw [applyC_cur, applyC_cur, h2]
    · rw [applyC_l, applyC_l, tightenBounds_l, tightenBounds_l, hl]
    · rw [applyC_h, applyC_h, tightenBounds_h, tightenBounds_h, hh]
    · intro r hr
      rw [applyC_cur] at hr
      obtain ⟨ea1, ea2, ea3⟩ := applyC_entry i sc cp r
      obtain ⟨eb1, eb2, eb3⟩ := applyC_entry i tc cp r
      rw [ea1, ea2, ea3, eb1, eb2, eb3, h2]
      by_cases hin : cp.hasA ∧ tc.2 ≤ r ∧ r < tc.2 + (cp.F i).length
      · simp [hin]
      · have hrlt : r < sc.2 := by
          by_cases hA : cp.hasA
          · simp only [hA, if_pos] at hr
            simp only [hA, true_and] at hin
            omega
          · simp [hA] at hr
            omega
        simp only [if_neg hin]
        exact hag r hrlt

theorem assemble_agree (w : Wrapper) (s t : SolverState) (i : ℕ) (xm xM xnm xnM : Option ℚ)
    (hAc : s.Acols = t.Acols) (hN : i < w.Nstages) (hc2 : s.Acols = 2) :
    (assemble w s i xm xM xnm xnM).2 = none ∧
    (assemble w t i xm xM xnm xnM).2 = none ∧
    (assemble w s i xm xM xnm xnM).1.l = (assemble w t i xm xM xnm xnM).1.l ∧
    (assemble w s i xm xM xnm xnM).1.h = (assemble w t i xm xM xnm xnM).1.h ∧
    ∀ r, r < 2 + blockTotal w i →
      ((assemble w s i xm xM xnm xnM).1.A r = (assemble w t i xm xM xnm xnM).1.A r ∧
       (assemble w s i xm xM xnm xnM).1.lA r = (assemble w t i xm xM xnm xnM).1.lA r ∧
       (assemble w s i xm xM xnm xnM).1.hA r = (assemble w t i xm xM xnm xnM).1.hA r) := by
  have hct : t.Acols = 2 := by rw [← hAc]; exact hc2
  have hcs2 : (lhReset s xm xM).Acols = 2 := by simp [hc2]
  have hct2 : (lhReset t xm xM).Acols = 2 := by simp [hct]
  have hes : assemble w s i xm xM xnm xnM =
      ((w.params.foldl (applyC i)
        (rows01Write (lhReset s xm xM) (w.deltas i) xnm xnM, 2)).1, none) := by
    unfold assemble
    rw [if_pos hN, if_pos hcs2]
  have het : assemble w t i xm xM xnm xnM =
      ((w.params.foldl (applyC i)
        (rows01Write (lhReset t xm xM) (w.deltas i) xnm xnM, 2)).1, none) := by
    unfold assemble
    rw [if_pos hN, if_pos hct2]
  rw [hes, het]
  have hl : (rows01Write (lhReset s xm xM) (w.deltas i) xnm xnM, 2).1.l
      = (rows01Write (lhReset t xm xM) (w.deltas i) xnm xnM, 2).1.l := by
    show (rows01Write _ _ _ _).l = (rows01Write _ _ _ _).l
    rw [rows01Write_l, rows01Write_l, lhReset_l, lhReset_l]
  have hh : (rows01Write (lhReset s xm xM) (w.deltas i) xnm xnM, 2).1.h
      = (rows01Write (lhReset t xm xM) (w.deltas i) xnm xnM, 2).1.h := by
    show (rows01Write _ _ _ _).h = (rows01Write _ _ _ _).h
    rw [rows01Write_h, rows01Write_h, lhReset_h, lhReset_h]
  have hag : ∀ r, r < 2 →
      ((rows01Write (lhReset s xm xM) (w.deltas i) xnm xnM, 2).1.A r
        = (rows01Write (lhReset t xm xM) (w.deltas i) xnm xnM, 2).1.A r ∧
       (rows01Write (lhReset s xm xM) (w.deltas i) xnm xnM, 2).1.lA r
        = (rows01Write (lhReset t xm xM) (w.deltas i) xnm xnM, 2).1.lA r ∧
       (rows01Write (lhReset s xm xM) (w.deltas i) xnm xnM, 2).1.hA r
        = (rows01Write (lhReset t xm xM) (w.deltas i) xnm xnM, 2).1.hA r) := by
    intro r hr
    match r, hr with
    | 0, _ =>
      refine ⟨?_, ?_, ?_⟩
      · rw [rows01Write_A0, rows01Write_A0]
      · rw [rows01Write_lA0, rows01Write_lA0]
      · rw [rows01Write_hA0, rows01Write_hA0]
    | 1, _ =>
      refine ⟨?_, ?_, ?_⟩
      · rw [rows01Write_A1, rows01Write_A1]
      · rw [rows01Write_lA1, rows01Write_lA1]
      · rw [rows01Write_hA1, rows01Write_hA1]
  obtain ⟨hcur, hfl, hfh, hfag⟩ := foldl_applyC_agree i w.params
    (rows01Write (lhReset s xm xM) (w.deltas i) xnm xnM, 2)
    (rows01Write (lhReset t xm xM) (w.deltas i) xnm xnM, 2) rfl hl hh hag
  have hcurval : (w.params.foldl (applyC i)
      (rows01Write (lhReset s xm xM) (w.deltas i) xnm xnM, 2)).2 = 2 + blockTotal w i := by
    rw [foldl_applyC_cur]
    rfl
  refine ⟨rfl, rfl, hfl, hfh, ?_⟩
  intro r hr
  exact hfag r (by rw [hcurval]; exact hr)

theorem foldl_congr_mem {α β : Type} (l : List β) (f g : α → β → α) (a : α)
    (h : ∀ acc x, x ∈ l → f acc x = g acc x) : l.foldl f a = l.foldl g a := by
  induction l generalizing a with
  | nil => rfl
  | cons x xs ih =>
    simp only [List.foldl_cons]
    rw [h a x (by simp)]
    exact ih _ (fun acc y hy => h acc y (by simp [hy]))

theorem map_ext_mem {α β : Type} (l : List α) (f g : α → β)
    (h : ∀ x ∈ l, f x = g x) : l.map f = l.map g := by
  induction l with
  | nil => rfl
  | cons x xs ih =>
    simp only [List.map_cons]
    rw [h x (by simp), ih (fun y hy => h y (by simp [hy]))]

theorem fallback_u_congr (w : Wrapper) (s t : SolverState) (xm : ℚ)
    (h : ∀ r, r < w.nC → s.A r = t.A r ∧ s.hA r = t.hA r) :
    fallback_u w s xm = fallback_u w t xm := by
  unfold fallback_u
  apply foldl_congr_mem
  intro acc r hr
  have hrlt : r < w.nC := List.mem_range.mp hr
  rw [(h r hrlt).1, (h r hrlt).2]

theorem colAbsSum_congr (w : Wrapper) (s t : SolverState) (fst : Bool)
    (h : ∀ r, r < w.nC → s.A r = t.A r) :
    colAbsSum w s.A fst = colAbsSum w t.A fst := by
  unfold colAbsSum
  apply foldl_congr_mem
  intro acc r hr
  have hrlt : r < w.nC := List.mem_range.mp (List.mem_of_mem_drop hr)
  rw [h r hrlt]

theorem scaledPass_congr (w : Wrapper) (s t : SolverState) (H : (ℚ × ℚ) × (ℚ × ℚ))
    (g : ℚ × ℚ)
    (hl : s.l = t.l) (hh : s.h = t.h)
    (hag : ∀ r, r < w.nC → s.A r = t.A r ∧ s.lA r = t.lA r ∧ s.hA r = t.hA r) :
    (scaledPass w s H g).1 = (scaledPass w t H g).1 ∧
    (scaledPass w s H g).2.1 = (scaledPass w t H g).2.1 := by
  have hagA : ∀ r, r < w.nC → s.A r = t.A r := fun r hr => (hag r hr).1
  have hc1 : colAbsSum w s.A true = colAbsSum w t.A true := colAbsSum_congr w s t true hagA
  have hc2 : colAbsSum w s.A false = colAbsSum w t.A false := colAbsSum_congr w s t false hagA
  unfold scaledPass
  dsimp only
  rw [hc1, hc2, hl, hh]
  refine ⟨?_, rfl⟩
  congr 1
  · apply map_ext_mem
    intro r hr
    obtain ⟨e1, e2, e3⟩ := hag r (List.mem_range.mp hr)
    rw [e1]
  · apply map_ext_mem
    intro r hr
    obtain ⟨e1, e2, e3⟩ := hag r (List.mem_range.mp hr)
    rw [e1, e2]
  · apply map_ext_mem
    intro r hr
    obtain ⟨e1, e2, e3⟩ := hag r (List.mem_range.mp hr)
    rw [e1, e3]

theorem dispatchSolve_Acols (w : Wrapper) (be : Backend) (s2 : SolverState) (i : ℕ)
    (p : QProblem) (scales : ℚ × ℚ) :
    (dispatchSolve w be s2 i p scales).2.Acols = s2.Acols := by
  unfold dispatchSolve
  split <;> rfl

theorem scaledPass_Acols (w : Wrapper) (s : SolverState) (H : (ℚ × ℚ) × (ℚ × ℚ))
    (g : ℚ × ℚ) : (scaledPass w s H g).2.2.Acols = s.Acols := rfl

theorem solve_Acols (w : Wrapper) (be : Backend) (s0 : SolverState) (i : ℕ)
    (Hq : Option ((ℚ × ℚ) × (ℚ × ℚ))) (g : ℚ × ℚ) (xm xM xnm xnM : Option ℚ) :
    (solve_stagewise_optim w be s0 i Hq g xm xM xnm xnM).2.Acols = s0.Acols := by
  have hmisc := (assemble_misc w s0 i xm xM xnm xnM).1
  by_cases hi : i ≤ w.Nstages
  · cases hasm : (assemble w s0 i xm xM xnm xnM).2 with
    | some e => simp [solve_stagewise_optim, hi, hasm, hmisc]
    | none =>
      cases xm with
      | none => simp [solve_stagewise_optim, hi, hasm, hmisc]
      | some a =>
        cases xM with
        | none => simp [solve_stagewise_optim, hi, hasm, hmisc]
        | some b =>
          by_cases htr : pabs (a - b) < eps ∧ Hq = none ∧ w.nV = 2
          · by_cases hiN : i < w.Nstages <;>
              simp [solve_stagewise_optim, hi, hasm, htr, hiN, hmisc]
          · by_cases hc : (assemble w s0 i (some a) (some b) xnm xnM).1.Acols = 2
            · simp [solve_stagewise_optim, hi, hasm, htr, hc, dispatchSolve_Acols,
                scaledPass_Acols, hmisc, -Prod.mk_zero_zero]
              rw [← hc, hmisc]
            · have hc0 : ¬ s0.Acols = 2 := by rw [← hmisc]; exact hc
              simp [solve_stagewise_optim, hi, hasm, htr, hc0, hmisc]
  · simp [solve_stagewise_optim, hi]

/-- C4 (amended): for every pair of consecutive calls with identical
arguments at a stage i < N (with the wrapper's row count covered by the
rows the assembler writes), and a backend whose cold init and warm hotstart
agree on identical problem data (as the spec requires of the backend), the
two calls return identical results.  At the final stage i = N this fails:
the two leading next-state rows are not reassembled but are rescaled again,
so the second call hands the backend different data. -/
theorem C4_idempotent_stage_lt (w : Wrapper) (be : Backend) (s0 : SolverState) (i : ℕ)
    (Hq : Option ((ℚ × ℚ) × (ℚ × ℚ))) (g : ℚ × ℚ) (xm xM xnm xnM : Option ℚ)
    (hN : i < w.Nstages)
    (hcap : w.nC ≤ 2 + blockTotal w i)
    (hbe : ∀ sess p, be sess true p = be sess false p) :
    (solve_stagewise_optim w be (solve_stagewise_optim w be s0 i Hq g xm xM xnm xnM).2
        i Hq g xm xM xnm xnM).1
      = (solve_stagewise_optim w be s0 i Hq g xm xM xnm xnM).1 := by
  have hi : i ≤ w.Nstages := Nat.le_of_lt hN
  have hbe2 : ∀ sess f1 f2 p, be sess f1 p = be sess f2 p := by
    intro sess f1 f2 p
    cases f1 <;> cases f2
    · rfl
    · exact (hbe sess p).symm
    · exact hbe sess p
    · rfl
  set s1 := (solve_stagewise_optim w be s0 i Hq g xm xM xnm xnM).2 with hs1
  have hAc : s1.Acols = s0.Acols := solve_Acols w be s0 i Hq g xm xM xnm xnM
  by_cases hc2 : s0.Acols = 2
  · have hc21 : s1.Acols = 2 := by rw [hAc]; exact hc2
    cases xm with
    | none =>
      have herr0 : (assemble w s0 i none xM xnm xnM).2 = none := by
        rw [assemble_err]; simp [hc2]
      have herr1 : (assemble w s1 i none xM xnm xnM).2 = none := by
        rw [assemble_err]; simp [hc21]
      cases xM <;> simp [solve_stagewise_optim, hi, herr0, herr1]
    | some a =>
      cases xM with
      | none =>
        have herr0 : (assemble w s0 i (some a) none xnm xnM).2 = none := by
          rw [assemble_err]; simp [hc2]
        have herr1 : (assemble w s1 i (some a) none xnm xnM).2 = none := by
          rw [assemble_err]; simp [hc21]
        simp [solve_stagewise_optim, hi, herr0, herr1]
      | some b =>
        obtain ⟨herr1, herr0, hl, hh, hag⟩ :=
          assemble_agree w s1 s0 i (some a) (some b) xnm xnM (by rw [hAc]) hN hc21
        by_cases htr : pabs (a - b) < eps ∧ Hq = none ∧ w.nV = 2
        · have hfb := fallback_u_congr w (assemble w s1 i (some a) (some b) xnm xnM).1
            (assemble w s0 i (some a) (some b) xnm xnM).1 a
            (fun r hr => ⟨(hag r (lt_of_lt_of_le hr hcap)).1,
                          (hag r (lt_of_lt_of_le hr hcap)).2.2⟩)
          simp [solve_stagewise_optim, hi, herr0, herr1, htr, hN, hfb]
        · have hcols0 : (assemble w s0 i (some a) (some b) xnm xnM).1.Acols = 2 := by
            rw [(assemble_misc w s0 i (some a) (some b) xnm xnM).1]
            exact hc2
          have hcols1 : (assemble w s1 i (some a) (some b) xnm xnM).1.Acols = 2 := by
            rw [(assemble_misc w s1 i (some a) (some b) xnm xnM).1]
            exact hc21
          rw [solve_result_be w be s1 i Hq g a b xnm xnM hi herr1 htr hcols1,
              solve_result_be w be s0 i Hq g a b xnm xnM hi herr0 htr hcols0]
          obtain ⟨hp, hsc⟩ := scaledPass_congr w
            (assemble w s1 i (some a) (some b) xnm xnM).1
            (assemble w s0 i (some a) (some b) xnm xnM).1
            (Hq.getD ((0, 0), (0, 0))) g hl hh
            (fun r hr => hag r (lt_of_lt_of_le hr hcap))
          rw [hp, hsc]
          congr 1
          congr 1
          exact hbe2 _ _ _ _
  · have herr0 : (assemble w s0 i xm xM xnm xnM).2 = some PyError.valueError := by
      rw [assemble_err]; simp [hN, hc2]
    have hc21 : ¬ s1.Acols = 2 := by rw [hAc]; exact hc2
    have herr1 : (assemble w s1 i xm xM xnm xnM).2 = some PyError.valueError := by
      rw [assemble_err]; simp [hN, hc21]
    simp [solve_stagewise_optim, hi, herr0, herr1]

/- Concrete refutation of unrestricted idempotence: at the final stage
i = N the next-state rows written by an earlier stage-0 call are not
reassembled, but the scaling step rebinds rescaled buffers on every call,
so two consecutive identical calls at stage N hand the backend different
matrices.  The backend below is deterministic and treats init and hotstart
identically (it echoes entry A[1][0] of the problem it receives), and
checking is disabled, so the differing returned values come only from the
differing scaled data. -/

def wC4 : Wrapper where
  Nstages := 1
  deltas := fun _ => 1
  params := []
  disableCheck := true

def beC4 : Backend := fun _ _ p => some ((p.A.getD 1 (0, 0)).1, 0)

def c4first : Except PyError (List PyFloat) × SolverState :=
  solve_stagewise_optim wC4 beC4 (initState wC4) 0 none (1, 1) (some 0) (some 1) none (some 1)

def c4callA : Except PyError (List PyFloat) × SolverState :=
  solve_stagewise_optim wC4 beC4 c4first.2 1 none (1, 1) (some 0) (some 1) none none

def c4callB : Except PyError (List PyFloat) × SolverState :=
  solve_stagewise_optim wC4 beC4 c4callA.2 1 none (1, 1) (some 0) (some 1) none none

/-- C4 counterexample: the two consecutive identical calls at stage
i = N = 1 (with no intervening call to another stage) return different
results. -/
theorem C4_counterexample : c4callA.1 ≠ c4callB.1 := by
  norm_num [c4callA, c4callB, c4first, solve_stagewise_optim, assemble, lhReset, rows01Write,
    applyC, tightenBounds, scaledPass, dispatchSolve, finalize, feasCheck, colAbsSum,
    fallback_u, beC4, wC4, initState, Wrapper.nV, Wrapper.nC, CParams.rowCount, updF, pabs,
    eps, smallReg, QPOASES_INFTY, List.range_succ, nanVec]

/-- C4 witness: idempotence of two identical calls at stage 0 < N with a
constant backend. -/
theorem C4_witness :
    (solve_stagewise_optim wNoC (fun _ _ _ => some (0, 0))
        (solve_stagewise_optim wNoC (fun _ _ _ => some (0, 0)) (initState wNoC) 0 none (1, 1)
          (some 0) (some 1) none none).2 0 none (1, 1) (some 0) (some 1) none none).1
      = (solve_stagewise_optim wNoC (fun _ _ _ => some (0, 0)) (initState wNoC) 0 none (1, 1)
          (some 0) (some 1) none none).1 :=
  C4_idempotent_stage_lt wNoC (fun _ _ _ => some (0, 0)) (initState wNoC) 0 none (1, 1)
    (some 0) (some 1) none none (by decide) (by decide) (fun sess p => rfl)
